import Mathlib

/-!
# Host NIC exporter (`internal/nutanix/host_nics.go`)

A shallow embedding of `HostNicsExporter.Describe` and `HostNicsExporter.Collect`.

* JSON documents decoded into Go's `any` are values of `JVal`; a Go map
  `map[string]interface{}` is an association list, iterated in list order (any order of a
  Go map range is some list order).
* `float64` is an abstract carrier `F` with decidable equality; the file only stores gauge
  values and compares them with `-1`.
* The channel passed to `Describe` / `Collect` is the list of what was sent, oldest first.
  A Go run-time panic stops the run; what was sent before it stays sent.
* A sample records the value passed to `Set` right before the gauge is sent. In Go the
  gauges of one vector with equal label values are one object, so when two sends share
  vector and label values a reader of the channel may see the later value for both; the
  statements below are about what is sent and the value set at that moment.
* The helpers `normalizeKey` and `valueToFloat64` belong to the embedded `nutanixExporter`,
  which is declared in another file of the package; they are parameters (`Deps`).
-/

namespace HostNics

/-- JSON value as `encoding/json` decodes it into an `any`. -/
inductive JVal (F : Type) where
  | null : JVal F
  | bool (b : Bool) : JVal F
  | num (x : F) : JVal F
  | str (s : String) : JVal F
  | arr (xs : List (JVal F)) : JVal F
  | obj (kvs : List (String × JVal F)) : JVal F

/-- Helpers of the embedded `nutanixExporter` and of the standard library that the file
calls but does not define. -/
structure Deps (F : Type) where
  /-- The method `nutanixExporter.normalizeKey`. -/
  normalizeKey : String → String
  /-- The method `nutanixExporter.valueToFloat64`. -/
  valueToFloat64 : JVal F → F
  /-- How `fmt` renders a `float64` under the verb `%v`. -/
  fmtFloat : F → String
  /-- The constant `1`. -/
  one : F
  /-- The constant `-1`. -/
  negOne : F

/-- Run-time panics of the Go code. -/
inductive Panic where
  /-- A failed type assertion `x.(T)`. -/
  | typeAssertion : Panic
  /-- Method call on the nil `*GaugeVec` that `e.metrics[key]` yields for a missing key. -/
  | nilMetric (key : String) : Panic
  /-- The call `WithLabelValues` with a number of values other than the number of label names. -/
  | labelCardinality (key : String) : Panic
  deriving DecidableEq, Repr

/-- The part of a `prometheus.GaugeVec` this file determines: the options it was built
from and its label names. -/
structure GaugeVec where
  namespace_ : String
  name : String
  labelNames : List String
  deriving DecidableEq, Repr

/-- One gauge sent to the channel by `Collect`: the vector it belongs to, its label values
and the value set right before it was sent. -/
structure Sample (F : Type) where
  vec : GaugeVec
  labelValues : List String
  value : F
  deriving DecidableEq

/-- The constant `KEY_HOST_NIC_PROPERTIES`. -/
def KEY_HOST_NIC_PROPERTIES : String := "properties"

/-- The fields of `HostNicsExporter` (through the embedded `nutanixExporter`) that
`Describe` and `Collect` use. `result` is `nil` or the map with the one key `entities`. -/
structure HostNicsExporter (F : Type) where
  result : Option (List (JVal F))
  metrics : String → Option GaugeVec
  namespace_ : String
  properties : List String
  filter_stats : List (String × Bool)
  fields : List String

/-- Outcome of `makeV2Request` followed by `Decode(&entitiesArray)`: an error of the
request, or the content of `entitiesArray` after decoding (empty when the body is not a
JSON array, since the decoding error is dropped). -/
inductive Fetch (F : Type) where
  | failed : Fetch F
  | body (entitiesArray : List (JVal F)) : Fetch F

/-- Go map index `m[key]` on a `map[string]interface{}`: the value, or nil. -/
def index {F : Type} (m : List (String × JVal F)) (key : String) : JVal F :=
  (m.lookup key).getD JVal.null

/-- The test `_, ok := e.filter_stats[key]`. -/
def inFilter (filter_stats : List (String × Bool)) (key : String) : Bool :=
  (filter_stats.lookup key).isSome

/-- Map assignment `e.metrics[key] = g`. -/
def setMetric (metrics : String → Option GaugeVec) (key : String) (g : GaugeVec) :
    String → Option GaugeVec :=
  fun k => if k = key then some g else metrics k

mutual
/-- Rendering of a decoded JSON value by `fmt.Sprintf("%v", v)`. -/
def sprintV {F : Type} (fmtFloat : F → String) : JVal F → String
  | JVal.null => "<nil>"
  | JVal.bool b => if b then "true" else "false"
  | JVal.num x => fmtFloat x
  | JVal.str s => s
  | JVal.arr xs => "[" ++ " ".intercalate (sprintVList fmtFloat xs) ++ "]"
  | JVal.obj kvs =>
      "map[" ++ " ".intercalate
        (((sprintVFields fmtFloat kvs).insertionSort (fun a b => a.1 ≤ b.1)).map
          (fun kv => kv.1 ++ ":" ++ kv.2)) ++ "]"
/-- Renderings of the elements of a slice. -/
def sprintVList {F : Type} (fmtFloat : F → String) : List (JVal F) → List String
  | [] => []
  | x :: xs => sprintV fmtFloat x :: sprintVList fmtFloat xs
/-- Renderings of the values of a map, each with its key. -/
def sprintVFields {F : Type} (fmtFloat : F → String) :
    List (String × JVal F) → List (String × String)
  | [] => []
  | (k, v) :: kvs => (k, sprintV fmtFloat v) :: sprintVFields fmtFloat kvs
end

/-- The rows 53-58 and 100-105: `stats` stays nil when the entity has no key `stats`;
the type assertion on its value panics when the value is not a map. -/
def statsOf {F : Type} (ent : List (String × JVal F)) :
    Except Panic (Option (List (String × JVal F))) :=
  match ent.lookup "stats" with
  | none => Except.ok none
  | some (JVal.obj stats) => Except.ok (some stats)
  | some _ => Except.error Panic.typeAssertion

/-- What a run of `Describe` leaves: the exporter, the descriptors sent to the channel
and the panic that stopped it, if any. -/
structure DescribeRun (F : Type) where
  exporter : HostNicsExporter F
  ch : List GaugeVec
  panicked : Option Panic

/-- The loop `for key := range stats` of `Describe`. -/
def describeStats {F : Type} (D : Deps F) :
    List (String × JVal F) → HostNicsExporter F → List GaugeVec →
      HostNicsExporter F × List GaugeVec
  | [], e, ch => (e, ch)
  | (key, _) :: rest, e, ch =>
      if inFilter e.filter_stats key then
        let key1 := D.normalizeKey key
        let g : GaugeVec := ⟨e.namespace_, key1, ["uuid", "node_uuid"]⟩
        describeStats D rest { e with metrics := setMetric e.metrics key1 g } (ch ++ [g])
      else
        describeStats D rest e ch

/-- The loop `for _, entity := range entities` of `Describe`. -/
def describeEntities {F : Type} (D : Deps F) :
    List (JVal F) → HostNicsExporter F → List GaugeVec → DescribeRun F
  | [], e, ch => ⟨e, ch, none⟩
  | entity :: rest, e, ch =>
      match entity with
      | JVal.obj ent =>
          match statsOf ent with
          | Except.error p => ⟨e, ch, some p⟩
          | Except.ok stats =>
              let key := KEY_HOST_NIC_PROPERTIES
              let g : GaugeVec := ⟨e.namespace_, key, e.properties⟩
              let e1 := { e with metrics := setMetric e.metrics key g }
              match stats with
              | none => describeEntities D rest e1 (ch ++ [g])
              | some m =>
                  let r := describeStats D m e1 (ch ++ [g])
                  describeEntities D rest r.1 r.2
      | _ => ⟨e, ch, some Panic.typeAssertion⟩

/-- The method `HostNicsExporter.Describe`, given the outcome of its one request. -/
def Describe {F : Type} (D : Deps F) (e : HostNicsExporter F) (fetch : Fetch F) :
    DescribeRun F :=
  match fetch with
  | Fetch.failed => ⟨{ e with result := none }, [], none⟩
  | Fetch.body entitiesArray =>
      if entitiesArray.length > 0 then
        describeEntities D entitiesArray { e with result := some entitiesArray } []
      else
        ⟨e, [], none⟩

/-- What a run of `Collect` leaves: the samples sent to the channel and the panic that
stopped it, if any. -/
structure CollectRun (F : Type) where
  ch : List (Sample F)
  panicked : Option Panic

/-- The call `e.metrics[key].WithLabelValues(lvs...)`. -/
def withLabelValues (metrics : String → Option GaugeVec) (key : String)
    (lvs : List String) : Except Panic GaugeVec :=
  match metrics key with
  | none => Except.error (Panic.nilMetric key)
  | some g =>
      if lvs.length = g.labelNames.length then Except.ok g
      else Except.error (Panic.labelCardinality key)

/-- The type assertion `v.(string)`. -/
def assertString {F : Type} : JVal F → Except Panic String
  | JVal.str s => Except.ok s
  | _ => Except.error Panic.typeAssertion

/-- The loop `for _, addr := range obj.([]interface{})` appending `addr.(string)`. -/
def addrStrings {F : Type} : List (JVal F) → List String → Except Panic (List String)
  | [], strarr => Except.ok strarr
  | addr :: rest, strarr =>
      match addr with
      | JVal.str s => addrStrings rest (strarr ++ [s])
      | _ => Except.error Panic.typeAssertion

/-- The loop `for _, property := range e.properties` of `Collect`. -/
def propertyValues {F : Type} (D : Deps F) (ent : List (String × JVal F)) :
    List String → List String → Except Panic (List String)
  | [], property_values => Except.ok property_values
  | property :: rest, property_values =>
      if property = "ipv4_addresses" then
        match index ent property with
        | JVal.null => propertyValues D ent rest (property_values ++ [""])
        | JVal.arr xs =>
            match addrStrings xs [] with
            | Except.error p => Except.error p
            | Except.ok strarr =>
                propertyValues D ent rest (property_values ++ [",".intercalate strarr])
        | _ => Except.error Panic.typeAssertion
      else
        match index ent property with
        | JVal.null => propertyValues D ent rest (property_values ++ [""])
        | v => propertyValues D ent rest (property_values ++ [sprintV D.fmtFloat v])

/-- The expression
`e.metrics[key].WithLabelValues(ent["uuid"].(string), ent["node_uuid"].(string))`:
the arguments are evaluated before the call. -/
def uuidGauge {F : Type} (e : HostNicsExporter F) (ent : List (String × JVal F))
    (key : String) : Except Panic (GaugeVec × List String) :=
  match assertString (index ent "uuid") with
  | Except.error p => Except.error p
  | Except.ok uuid =>
      match assertString (index ent "node_uuid") with
      | Except.error p => Except.error p
      | Except.ok node_uuid =>
          match withLabelValues e.metrics key [uuid, node_uuid] with
          | Except.error p => Except.error p
          | Except.ok g => Except.ok (g, [uuid, node_uuid])

/-- The loop `for key, value := range stats` of `Collect`. -/
def collectStats {F : Type} [DecidableEq F] (D : Deps F) (e : HostNicsExporter F)
    (ent : List (String × JVal F)) :
    List (String × JVal F) → List (Sample F) → CollectRun F
  | [], ch => ⟨ch, none⟩
  | (key, value) :: rest, ch =>
      if inFilter e.filter_stats key then
        let val := D.valueToFloat64 value
        if val = D.negOne then
          collectStats D e ent rest ch
        else
          match uuidGauge e ent (D.normalizeKey key) with
          | Except.error p => ⟨ch, some p⟩
          | Except.ok g => collectStats D e ent rest (ch ++ [⟨g.1, g.2, val⟩])
      else
        collectStats D e ent rest ch

/-- The loop `for _, key := range e.fields` of `Collect`. -/
def collectFields {F : Type} (D : Deps F) (e : HostNicsExporter F)
    (ent : List (String × JVal F)) : List String → List (Sample F) → CollectRun F
  | [], ch => ⟨ch, none⟩
  | key :: rest, ch =>
      match uuidGauge e ent key with
      | Except.error p => ⟨ch, some p⟩
      | Except.ok g =>
          collectFields D e ent rest (ch ++ [⟨g.1, g.2, D.valueToFloat64 (index ent key)⟩])

/-- The loop `for _, entity := range entities` of `Collect`. -/
def collectEntities {F : Type} [DecidableEq F] (D : Deps F) (e : HostNicsExporter F) :
    List (JVal F) → List (Sample F) → CollectRun F
  | [], ch => ⟨ch, none⟩
  | entity :: rest, ch =>
      match entity with
      | JVal.obj ent =>
          match statsOf ent with
          | Except.error p => ⟨ch, some p⟩
          | Except.ok stats =>
              match propertyValues D ent e.properties [] with
              | Except.error p => ⟨ch, some p⟩
              | Except.ok property_values =>
                  match withLabelValues e.metrics KEY_HOST_NIC_PROPERTIES property_values with
                  | Except.error p => ⟨ch, some p⟩
                  | Except.ok g =>
                      let ch1 := ch ++ [⟨g, property_values, D.one⟩]
                      let r1 : CollectRun F :=
                        match stats with
                        | none => ⟨ch1, none⟩
                        | some m => collectStats D e ent m ch1
                      match r1.panicked with
                      | some p => ⟨r1.ch, some p⟩
                      | none =>
                          let r2 := collectFields D e ent e.fields r1.ch
                          match r2.panicked with
                          | some p => ⟨r2.ch, some p⟩
                          | none => collectEntities D e rest r2.ch
      | _ => ⟨ch, some Panic.typeAssertion⟩

/-- The method `HostNicsExporter.Collect`. -/
def Collect {F : Type} [DecidableEq F] (D : Deps F) (e : HostNicsExporter F) :
    CollectRun F :=
  match e.result with
  | none => ⟨[], none⟩
  | some entities => collectEntities D e entities []

/-- The exporter `NewHostsNetworkCollector` builds (no request made yet). -/
def NewHostsNetworkCollector (F : Type) : HostNicsExporter F where
  result := none
  metrics := fun _ => none
  namespace_ := "nutanix_hostnics"
  properties := ["node_uuid", "uuid", "mac_address", "ipv4_addresses", "name", "mtu_in_bytes"]
  filter_stats :=
    [("network.received_bytes", true), ("network.received_pkts", true),
     ("network.error_received_pkts", true), ("network.transmitted_bytes", true),
     ("network.transmitted_pkts", true), ("network.error_transmitted_pkts", true)]
  fields := []

/-- Modelled from the spec: `KeyNormalizer.normalize`, the method `normalizeKey` of the
embedded `nutanixExporter` (declared outside this file): every character other than a
letter, a digit, `_` and `:` is replaced by `_`. -/
def normalizeKeySpec (key : String) : String :=
  String.mk (key.data.map (fun c => if c.isAlphanum || c = '_' || c = ':' then c else '_'))

/-- Modelled from the spec: `ValueCoercion.toGaugeValue`, the method `valueToFloat64` of
the embedded `nutanixExporter` (declared outside this file), on integer gauge values: a
number passes through, a string that reads as a number gives that number, anything else
gives the sentinel `-1`. -/
def toGaugeValueSpec : JVal Int → Int
  | JVal.num x => x
  | JVal.str s => (s.toInt?).getD (-1)
  | _ => -1

/-- Helpers used to evaluate the exporter on concrete scrapes, with integer gauge values. -/
def specDeps : Deps Int where
  normalizeKey := normalizeKeySpec
  valueToFloat64 := toGaugeValueSpec
  fmtFloat := fun x => toString x
  one := 1
  negOne := -1

/-! ## What the claims speak about -/

/-- The map of an entity; empty for an element that is not a JSON object. -/
def entFields {F : Type} : JVal F → List (String × JVal F)
  | JVal.obj ent => ent
  | _ => []

/-- The stats map of an entity; empty when the entity has none. -/
def entStats {F : Type} (entity : JVal F) : List (String × JVal F) :=
  match (entFields entity).lookup "stats" with
  | some (JVal.obj stats) => stats
  | _ => []

/-- The string held by a JSON string. -/
def strOf {F : Type} : JVal F → String
  | JVal.str s => s
  | _ => ""

/-- The label values `(uuid, node_uuid)` of an entity. -/
def uuidLabels {F : Type} (entity : JVal F) : List String :=
  [strOf (index (entFields entity) "uuid"), strOf (index (entFields entity) "node_uuid")]

/-- The registry entry under a key. -/
def vecAt (metrics : String → Option GaugeVec) (key : String) : GaugeVec :=
  (metrics key).getD ⟨"", "", []⟩

/-- The value is a JSON string. -/
def isStr {F : Type} : JVal F → Bool
  | JVal.str _ => true
  | _ => false

/-- The value is absent, null or a list of strings. -/
def ipv4OK {F : Type} : JVal F → Bool
  | JVal.null => true
  | JVal.arr xs => xs.all isStr
  | _ => false

/-- The registry has an entry with `n` label names under the key. -/
def hasArity (metrics : String → Option GaugeVec) (key : String) (n : Nat) : Bool :=
  match metrics key with
  | some g => decide (g.labelNames.length = n)
  | none => false

/-- Well-formed for `Describe`: a JSON object whose `stats`, when present, is an object. -/
def describeOK {F : Type} : JVal F → Bool
  | JVal.obj ent =>
      match ent.lookup "stats" with
      | none => true
      | some (JVal.obj _) => true
      | some _ => false
  | _ => false

/-- Well-formed for `Collect`: well-formed for `Describe`, with string `uuid` and
`node_uuid`, and with `ipv4_addresses` (when it is a configured property) absent, null or a
list of strings. -/
def entityOK {F : Type} (properties : List String) (entity : JVal F) : Bool :=
  describeOK entity && isStr (index (entFields entity) "uuid") &&
    isStr (index (entFields entity) "node_uuid") &&
    (!properties.contains "ipv4_addresses" ||
      ipv4OK (index (entFields entity) "ipv4_addresses"))

/-- The registry resolves every lookup `Collect` makes for the entity on the stats path:
each key of the filter set whose value does not coerce to `-1` has a two-label entry. -/
def statsRegistered {F : Type} [DecidableEq F] (D : Deps F) (e : HostNicsExporter F)
    (entity : JVal F) : Bool :=
  (entStats entity).all (fun kv =>
    !inFilter e.filter_stats kv.1 || decide (D.valueToFloat64 kv.2 = D.negOne) ||
      hasArity e.metrics (D.normalizeKey kv.1) 2)

/-- Nothing makes `Collect` panic on the entities: they are well-formed and the registry
resolves every lookup with the right number of labels. -/
def collectSafe {F : Type} [DecidableEq F] (D : Deps F) (e : HostNicsExporter F)
    (entities : List (JVal F)) : Bool :=
  hasArity e.metrics KEY_HOST_NIC_PROPERTIES e.properties.length &&
    e.fields.all (fun f => hasArity e.metrics f 2) &&
    entities.all (fun entity => entityOK e.properties entity && statsRegistered D e entity)

/-- Display string of a property value: empty for an absent or null value, the strings
joined by a comma for `ipv4_addresses`, the `%v` rendering otherwise. -/
def displayString {F : Type} (D : Deps F) (property : String) (v : JVal F) : String :=
  match v with
  | JVal.null => ""
  | JVal.arr xs =>
      if property = "ipv4_addresses" then ",".intercalate (xs.map strOf)
      else sprintV D.fmtFloat (JVal.arr xs)
  | w => sprintV D.fmtFloat w

/-- The sample of the properties metric for an entity. -/
def propertiesSample {F : Type} (D : Deps F) (e : HostNicsExporter F) (entity : JVal F) :
    Sample F :=
  ⟨vecAt e.metrics KEY_HOST_NIC_PROPERTIES,
    e.properties.map (fun p => displayString D p (index (entFields entity) p)), D.one⟩

/-- The samples of the stats path for an entity: one for each entry of its stats map, in
order, whose key is in the filter set and whose value does not coerce to `-1`. -/
def statSamples {F : Type} [DecidableEq F] (D : Deps F) (e : HostNicsExporter F)
    (entity : JVal F) : List (Sample F) :=
  (entStats entity).flatMap (fun kv =>
    if inFilter e.filter_stats kv.1 = true ∧ D.valueToFloat64 kv.2 ≠ D.negOne then
      [⟨vecAt e.metrics (D.normalizeKey kv.1), uuidLabels entity, D.valueToFloat64 kv.2⟩]
    else [])

/-- The samples of the extra fields for an entity: one for each field name, in order. -/
def fieldSamples {F : Type} (D : Deps F) (e : HostNicsExporter F) (entity : JVal F) :
    List (Sample F) :=
  e.fields.map (fun f =>
    ⟨vecAt e.metrics f, uuidLabels entity, D.valueToFloat64 (index (entFields entity) f)⟩)

/-- All samples for an entity, in the order `Collect` sends them. -/
def entitySamples {F : Type} [DecidableEq F] (D : Deps F) (e : HostNicsExporter F)
    (entity : JVal F) : List (Sample F) :=
  propertiesSample D e entity :: (statSamples D e entity ++ fieldSamples D e entity)

/-! ## Descriptors, origins and lookups -/

/-- The vector `Describe` builds for the properties metric. -/
def propertiesVec {F : Type} (e : HostNicsExporter F) : GaugeVec :=
  ⟨e.namespace_, KEY_HOST_NIC_PROPERTIES, e.properties⟩

/-- The vector `Describe` builds for a statistic key. -/
def statVec {F : Type} (D : Deps F) (e : HostNicsExporter F) (key : String) : GaugeVec :=
  ⟨e.namespace_, D.normalizeKey key, ["uuid", "node_uuid"]⟩

/-- The vectors `Describe` builds for a stats map: one for each entry, in order, whose key
is in the filter set. -/
def statVecs {F : Type} (D : Deps F) (e : HostNicsExporter F)
    (stats : List (String × JVal F)) : List GaugeVec :=
  (stats.filter (fun kv => inFilter e.filter_stats kv.1)).map (fun kv => statVec D e kv.1)

/-- The vectors `Describe` builds for an entity, in order. -/
def entityVecs {F : Type} (D : Deps F) (e : HostNicsExporter F) (entity : JVal F) :
    List GaugeVec :=
  propertiesVec e :: statVecs D e (entStats entity)

/-- The registry after storing each vector of a list under its name, in order. -/
def registerAll (metrics : String → Option GaugeVec) (gs : List GaugeVec) :
    String → Option GaugeVec :=
  gs.foldl (fun m g => setMetric m g.name g) metrics

/-- Where a sample of `Collect` can come from: the registry entry of the properties
metric, of an extra field, or of the normalized key of a stats entry that is in the filter
set and does not coerce to `-1`. -/
def sampleOrigin {F : Type} (D : Deps F) (e : HostNicsExporter F)
    (entities : List (JVal F)) (x : Sample F) : Prop :=
  e.metrics KEY_HOST_NIC_PROPERTIES = some x.vec ∨
    (∃ f ∈ e.fields, e.metrics f = some x.vec) ∨
    ∃ entity ∈ entities, ∃ kv ∈ entStats entity,
      inFilter e.filter_stats kv.1 = true ∧ D.valueToFloat64 kv.2 ≠ D.negOne ∧
        e.metrics (D.normalizeKey kv.1) = some x.vec

/-- Keys under which `Collect` looks up a metric for the entities: the properties key, the
extra fields and the normalized keys of the stats entries that pass the filter and do not
coerce to `-1`. -/
def lookedUp {F : Type} (D : Deps F) (e : HostNicsExporter F) (entities : List (JVal F))
    (key : String) : Prop :=
  key = KEY_HOST_NIC_PROPERTIES ∨ key ∈ e.fields ∨
    ∃ entity ∈ entities, ∃ kv ∈ entStats entity, inFilter e.filter_stats kv.1 = true ∧
      D.valueToFloat64 kv.2 ≠ D.negOne ∧ D.normalizeKey kv.1 = key

/-- Names under which `Describe` stores and sends a vector for the entities: the
properties key and the normalized keys of the stats entries that pass the filter. -/
def describedName {F : Type} (D : Deps F) (e : HostNicsExporter F)
    (entities : List (JVal F)) (n : String) : Prop :=
  n = KEY_HOST_NIC_PROPERTIES ∨
    ∃ entity ∈ entities, ∃ kv ∈ entStats entity,
      inFilter e.filter_stats kv.1 = true ∧ D.normalizeKey kv.1 = n

/-! ## Concrete scrapes -/

/-- Entity `a` of the scenario in the specification. -/
def entityA : JVal Int :=
  JVal.obj [("uuid", JVal.str "a"), ("node_uuid", JVal.str "n1"),
    ("mac_address", JVal.str "aa:bb"),
    ("stats", JVal.obj [("network.received_bytes", JVal.num 100),
      ("network.unknown_metric", JVal.num 5)])]

/-- Entity `b` of the scenario in the specification. -/
def entityB : JVal Int :=
  JVal.obj [("uuid", JVal.str "b"), ("node_uuid", JVal.str "n1"),
    ("mac_address", JVal.str "cc:dd"),
    ("stats", JVal.obj [("network.received_bytes", JVal.num (-1))])]

/-- An entity with two addresses and no stats. -/
def entityC : JVal Int :=
  JVal.obj [("uuid", JVal.str "c"), ("node_uuid", JVal.str "n1"),
    ("ipv4_addresses", JVal.arr [JVal.str "10.0.0.1", JVal.str "10.0.0.2"])]

/-- An entity whose `name` is a list of strings. -/
def entityD : JVal Int :=
  JVal.obj [("uuid", JVal.str "d"), ("node_uuid", JVal.str "n1"),
    ("name", JVal.arr [JVal.str "a", JVal.str "b"])]

/-- An entity that reports a statistic called `properties` and, next to an allow-listed
key, a key that is already in normalized form. -/
def entityE : JVal Int :=
  JVal.obj [("uuid", JVal.str "e"), ("node_uuid", JVal.str "n1"),
    ("stats", JVal.obj [("properties", JVal.num 5), ("network.received_bytes", JVal.num 100),
      ("network_received_bytes", JVal.num 7)])]

/-- The exporter of the scenario: the one `NewHostsNetworkCollector` builds, with the
filter set of the scenario. -/
def scenarioExporter : HostNicsExporter Int :=
  { NewHostsNetworkCollector Int with filter_stats := [("network.received_bytes", true)] }

/-- The entities of the scenario. -/
def scenarioEntities : List (JVal Int) := [entityA, entityB]

/-- The exporter after `Describe` fetched the entities of the scenario. -/
def scenarioReady : HostNicsExporter Int :=
  (Describe specDeps scenarioExporter (Fetch.body scenarioEntities)).exporter

/-- An exporter with an extra field that no statistic key normalizes to. -/
def fieldsExporter : HostNicsExporter Int :=
  { scenarioExporter with fields := ["mtu_in_bytes"] }

/-- An exporter whose extra field is also the normalized form of an allow-listed key. -/
def sharedFieldExporter : HostNicsExporter Int :=
  { scenarioExporter with fields := ["network_received_bytes"] }

/-- The exporter `sharedFieldExporter` after `Describe` fetched entity `b` alone. -/
def sharedFieldReady : HostNicsExporter Int :=
  (Describe specDeps sharedFieldExporter (Fetch.body [entityB])).exporter

/-- The exporter of the scenario after `Describe` fetched entity `c` alone. -/
def addressesReady : HostNicsExporter Int :=
  (Describe specDeps scenarioExporter (Fetch.body [entityC])).exporter

/-! ## The loops of `Collect` when nothing panics -/

theorem addrStrings_ok {F : Type} (xs : List (JVal F)) (strarr : List String)
    (h : xs.all isStr = true) :
    addrStrings xs strarr = Except.ok (strarr ++ xs.map strOf) := by
  induction xs generalizing strarr with
  | nil => simp [addrStrings]
  | cons x rest ih =>
      simp only [List.all_cons, Bool.and_eq_true] at h
      obtain ⟨hx, hrest⟩ := h
      cases x <;> simp [isStr] at hx
      simp [addrStrings, strOf, ih _ hrest]

theorem propertyValues_ok {F : Type} (D : Deps F) (ent : List (String × JVal F))
    (props acc : List String)
    (h : ∀ p ∈ props, p = "ipv4_addresses" → ipv4OK (index ent p) = true) :
    propertyValues D ent props acc =
      Except.ok (acc ++ props.map (fun p => displayString D p (index ent p))) := by
  induction props generalizing acc with
  | nil => simp [propertyValues]
  | cons p rest ih =>
      have hrest : ∀ q ∈ rest, q = "ipv4_addresses" → ipv4OK (index ent q) = true :=
        fun q hq => h q (List.mem_cons_of_mem _ hq)
      unfold propertyValues
      by_cases hp : p = "ipv4_addresses"
      · have hv := h p (List.mem_cons_self _ _) hp
        rw [if_pos hp]
        cases hidx : index ent p with
        | null => simp [ih _ hrest, displayString, hidx]
        | arr xs =>
            rw [hidx] at hv
            simp only [ipv4OK] at hv
            rw [hp] at hidx
            simp [addrStrings_ok xs [] hv, ih _ hrest, displayString, hp, hidx]
        | bool b => rw [hidx] at hv; simp [ipv4OK] at hv
        | num x => rw [hidx] at hv; simp [ipv4OK] at hv
        | str s => rw [hidx] at hv; simp [ipv4OK] at hv
        | obj m => rw [hidx] at hv; simp [ipv4OK] at hv
      · rw [if_neg hp]
        cases hidx : index ent p <;> simp [ih _ hrest, displayString, hp, hidx]

theorem withLabelValues_ok (metrics : String → Option GaugeVec) (key : String)
    (lvs : List String) (h : hasArity metrics key lvs.length = true) :
    withLabelValues metrics key lvs = Except.ok (vecAt metrics key) := by
  unfold hasArity at h
  unfold withLabelValues vecAt
  cases hm : metrics key with
  | none => rw [hm] at h; simp at h
  | some g =>
      rw [hm] at h
      simp only [decide_eq_true_eq] at h
      simp [h]

theorem assertString_ok {F : Type} (v : JVal F) (h : isStr v = true) :
    assertString v = Except.ok (strOf v) := by
  cases v <;> simp [isStr] at h
  simp [assertString, strOf]

theorem uuidGauge_ok {F : Type} (e : HostNicsExporter F) (ent : List (String × JVal F))
    (key : String) (hu : isStr (index ent "uuid") = true)
    (hn : isStr (index ent "node_uuid") = true) (hk : hasArity e.metrics key 2 = true) :
    uuidGauge e ent key =
      Except.ok (vecAt e.metrics key,
        [strOf (index ent "uuid"), strOf (index ent "node_uuid")]) := by
  unfold uuidGauge
  rw [assertString_ok _ hu, assertString_ok _ hn]
  simp only []
  rw [withLabelValues_ok _ _ _ (by simpa using hk)]

theorem collectStats_ok {F : Type} [DecidableEq F] (D : Deps F) (e : HostNicsExporter F)
    (ent : List (String × JVal F)) (hu : isStr (index ent "uuid") = true)
    (hn : isStr (index ent "node_uuid") = true) (stats : List (String × JVal F))
    (ch : List (Sample F))
    (h : ∀ kv ∈ stats, inFilter e.filter_stats kv.1 = true →
      D.valueToFloat64 kv.2 ≠ D.negOne → hasArity e.metrics (D.normalizeKey kv.1) 2 = true) :
    collectStats D e ent stats ch =
      ⟨ch ++ stats.flatMap (fun kv =>
        if inFilter e.filter_stats kv.1 = true ∧ D.valueToFloat64 kv.2 ≠ D.negOne then
          [⟨vecAt e.metrics (D.normalizeKey kv.1),
            [strOf (index ent "uuid"), strOf (index ent "node_uuid")],
            D.valueToFloat64 kv.2⟩]
        else []), none⟩ := by
  induction stats generalizing ch with
  | nil => simp [collectStats]
  | cons kv rest ih =>
      obtain ⟨key, value⟩ := kv
      have hrest : ∀ kv ∈ rest, inFilter e.filter_stats kv.1 = true →
          D.valueToFloat64 kv.2 ≠ D.negOne →
            hasArity e.metrics (D.normalizeKey kv.1) 2 = true :=
        fun kv hkv => h kv (List.mem_cons_of_mem _ hkv)
      unfold collectStats
      by_cases hf : inFilter e.filter_stats key = true
      · by_cases hv : D.valueToFloat64 value = D.negOne
        · simp [hf, hv, ih _ hrest]
        · have hk := h (key, value) (List.mem_cons_self _ _) hf hv
          simp [hf, hv, ih _ hrest, uuidGauge_ok e ent _ hu hn hk]
      · simp [hf, ih _ hrest]

theorem collectFields_ok {F : Type} (D : Deps F) (e : HostNicsExporter F)
    (ent : List (String × JVal F)) (hu : isStr (index ent "uuid") = true)
    (hn : isStr (index ent "node_uuid") = true) (fields : List String)
    (ch : List (Sample F)) (h : ∀ f ∈ fields, hasArity e.metrics f 2 = true) :
    collectFields D e ent fields ch =
      ⟨ch ++ fields.map (fun f =>
        ⟨vecAt e.metrics f, [strOf (index ent "uuid"), strOf (index ent "node_uuid")],
          D.valueToFloat64 (index ent f)⟩), none⟩ := by
  induction fields generalizing ch with
  | nil => simp [collectFields]
  | cons f rest ih =>
      have hrest : ∀ g ∈ rest, hasArity e.metrics g 2 = true :=
        fun g hg => h g (List.mem_cons_of_mem _ hg)
      unfold collectFields
      simp [uuidGauge_ok e ent f hu hn (h f (List.mem_cons_self _ _)), ih _ hrest]

theorem collectEntities_ok {F : Type} [DecidableEq F] (D : Deps F) (e : HostNicsExporter F)
    (entities : List (JVal F)) (ch : List (Sample F))
    (hp : hasArity e.metrics KEY_HOST_NIC_PROPERTIES e.properties.length = true)
    (hf : ∀ f ∈ e.fields, hasArity e.metrics f 2 = true)
    (h : ∀ entity ∈ entities,
      entityOK e.properties entity = true ∧ statsRegistered D e entity = true) :
    collectEntities D e entities ch = ⟨ch ++ entities.flatMap (entitySamples D e), none⟩ := by
  induction entities generalizing ch with
  | nil => simp [collectEntities]
  | cons entity rest ih =>
      have hrest : ∀ x ∈ rest,
          entityOK e.properties x = true ∧ statsRegistered D e x = true :=
        fun x hx => h x (List.mem_cons_of_mem _ hx)
      obtain ⟨hok, hreg⟩ := h entity (List.mem_cons_self _ _)
      cases entity with
      | obj ent =>
          simp only [entityOK, entFields, Bool.and_eq_true, Bool.or_eq_true,
            Bool.not_eq_true'] at hok
          obtain ⟨⟨⟨hd, hu⟩, hn⟩, hip⟩ := hok
          have hprops : ∀ p ∈ e.properties, p = "ipv4_addresses" →
              ipv4OK (index ent p) = true := by
            intro p hp1 hp2
            subst hp2
            rcases hip with hc | hc
            · have : e.properties.contains "ipv4_addresses" = true := by
                simpa using hp1
              rw [this] at hc
              exact absurd hc (by simp)
            · exact hc
          have hpv := propertyValues_ok D ent e.properties [] hprops
          have hwl := withLabelValues_ok e.metrics KEY_HOST_NIC_PROPERTIES
            (e.properties.map (fun p => displayString D p (index ent p))) (by simpa using hp)
          unfold collectEntities
          simp only [List.nil_append] at hpv
          simp only [statSamples, entStats, entFields, statsRegistered] at *
          cases hl : ent.lookup "stats" with
          | none =>
              have hs : statsOf ent = Except.ok none := by simp [statsOf, hl]
              simp only [hs, hpv, hwl]
              rw [collectFields_ok D e ent hu hn e.fields _ hf]
              simp only []
              rw [ih _ hrest]
              simp [entitySamples, propertiesSample, statSamples, fieldSamples, entStats,
                entFields, uuidLabels, hl]
          | some v =>
              cases v with
              | obj stats =>
                  have hs : statsOf ent = Except.ok (some stats) := by simp [statsOf, hl]
                  rw [hl] at hreg
                  simp only [List.all_eq_true, Bool.or_eq_true, Bool.not_eq_true',
                    decide_eq_true_eq] at hreg
                  have hst : ∀ kv ∈ stats, inFilter e.filter_stats kv.1 = true →
                      D.valueToFloat64 kv.2 ≠ D.negOne →
                        hasArity e.metrics (D.normalizeKey kv.1) 2 = true := by
                    intro kv hkv h1 h2
                    rcases hreg kv hkv with (h3 | h3) | h3
                    · rw [h1] at h3; exact absurd h3 (by simp)
                    · exact absurd h3 h2
                    · exact h3
                  simp only [hs, hpv, hwl]
                  rw [collectStats_ok D e ent hu hn stats _ hst]
                  simp only []
                  rw [collectFields_ok D e ent hu hn e.fields _ hf]
                  simp only []
                  rw [ih _ hrest]
                  simp [entitySamples, propertiesSample, statSamples, fieldSamples, entStats,
                    entFields, uuidLabels, hl]
              | null => simp [describeOK, hl] at hd
              | bool b => simp [describeOK, hl] at hd
              | num x => simp [describeOK, hl] at hd
              | str s => simp [describeOK, hl] at hd
              | arr xs => simp [describeOK, hl] at hd
      | null => simp [entityOK, describeOK] at hok
      | bool b => simp [entityOK, describeOK] at hok
      | num x => simp [entityOK, describeOK] at hok
      | str s => simp [entityOK, describeOK] at hok
      | arr xs => simp [entityOK, describeOK] at hok

/-- When nothing makes it panic, `Collect` sends, entity by entity in the order of the
cache, the properties sample, then the stats samples, then the field samples. -/
theorem Collect_eq {F : Type} [DecidableEq F] (D : Deps F) (e : HostNicsExporter F)
    (entities : List (JVal F)) (hres : e.result = some entities)
    (hsafe : collectSafe D e entities = true) :
    Collect D e = ⟨entities.flatMap (entitySamples D e), none⟩ := by
  simp only [collectSafe, Bool.and_eq_true, List.all_eq_true] at hsafe
  obtain ⟨⟨hp, hf⟩, hents⟩ := hsafe
  unfold Collect
  rw [hres]
  simp only []
  rw [collectEntities_ok D e entities [] hp hf hents]
  simp

/-! ## The loops of `Describe` when nothing panics -/

theorem registerAll_append (metrics : String → Option GaugeVec) (gs hs : List GaugeVec) :
    registerAll metrics (gs ++ hs) = registerAll (registerAll metrics gs) hs := by
  simp [registerAll, List.foldl_append]

theorem registerAll_apply (metrics : String → Option GaugeVec) (gs : List GaugeVec)
    (n : String) :
    registerAll metrics gs n =
      match gs.reverse.find? (fun g => decide (g.name = n)) with
      | some g => some g
      | none => metrics n := by
  induction gs generalizing metrics with
  | nil => simp [registerAll]
  | cons g rest ih =>
      have hstep : registerAll metrics (g :: rest) =
          registerAll (setMetric metrics g.name g) rest := by
        simp [registerAll]
      rw [hstep, ih]
      simp only [List.reverse_cons, List.find?_append]
      cases hfind : rest.reverse.find? (fun g => decide (g.name = n)) with
      | some g1 => simp
      | none =>
          by_cases hn : g.name = n
          · simp [setMetric, hn]
          · have hn1 : ¬ n = g.name := fun h => hn h.symm
            simp [setMetric, hn, hn1]

theorem describeStats_eq {F : Type} (D : Deps F) (stats : List (String × JVal F))
    (e : HostNicsExporter F) (ch : List GaugeVec) :
    describeStats D stats e ch =
      ({ e with metrics := registerAll e.metrics (statVecs D e stats) },
        ch ++ statVecs D e stats) := by
  induction stats generalizing e ch with
  | nil => simp [describeStats, statVecs, registerAll]
  | cons kv rest ih =>
      obtain ⟨key, value⟩ := kv
      unfold describeStats
      by_cases hf : inFilter e.filter_stats key = true
      · simp only [hf, if_true]
        rw [ih]
        simp [statVecs, statVec, registerAll, hf]
      · rw [if_neg hf, ih]
        simp [statVecs, hf]

theorem entityVecs_metrics {F : Type} (D : Deps F) (e : HostNicsExporter F)
    (m : String → Option GaugeVec) :
    entityVecs D { e with metrics := m } = entityVecs D e := rfl

theorem describeEntities_eq {F : Type} (D : Deps F) (entities : List (JVal F))
    (e : HostNicsExporter F) (ch : List GaugeVec)
    (h : ∀ entity ∈ entities, describeOK entity = true) :
    describeEntities D entities e ch =
      ⟨{ e with metrics := registerAll e.metrics (entities.flatMap (entityVecs D e)) },
        ch ++ entities.flatMap (entityVecs D e), none⟩ := by
  induction entities generalizing e ch with
  | nil => simp [describeEntities, registerAll]
  | cons entity rest ih =>
      have hrest : ∀ x ∈ rest, describeOK x = true :=
        fun x hx => h x (List.mem_cons_of_mem _ hx)
      have hd := h entity (List.mem_cons_self _ _)
      cases entity with
      | obj ent =>
          unfold describeEntities
          cases hl : ent.lookup "stats" with
          | none =>
              have hs : statsOf ent = Except.ok none := by simp [statsOf, hl]
              simp only [hs]
              rw [ih _ _ hrest, entityVecs_metrics]
              simp [entityVecs, propertiesVec, statVecs, statVec, entStats, entFields, hl,
                registerAll]
          | some v =>
              cases v with
              | obj stats =>
                  have hs : statsOf ent = Except.ok (some stats) := by simp [statsOf, hl]
                  simp only [hs]
                  rw [describeStats_eq]
                  simp only []
                  rw [ih _ _ hrest, entityVecs_metrics]
                  simp [entityVecs, propertiesVec, statVecs, statVec, entStats, entFields, hl,
                    registerAll, List.foldl_append]
              | null => simp [describeOK, hl] at hd
              | bool b => simp [describeOK, hl] at hd
              | num x => simp [describeOK, hl] at hd
              | str s => simp [describeOK, hl] at hd
              | arr xs => simp [describeOK, hl] at hd
      | null => simp [describeOK] at hd
      | bool b => simp [describeOK] at hd
      | num x => simp [describeOK] at hd
      | str s => simp [describeOK] at hd
      | arr xs => simp [describeOK] at hd

/-- On a non-empty fetch result of well-formed entities `Describe` caches the result,
sends the vectors of each entity in order and stores each under its name. -/
theorem Describe_eq {F : Type} (D : Deps F) (e : HostNicsExporter F)
    (entities : List (JVal F)) (hne : entities ≠ [])
    (h : ∀ entity ∈ entities, describeOK entity = true) :
    Describe D e (Fetch.body entities) =
      ⟨{ e with result := some entities,
                metrics := registerAll e.metrics (entities.flatMap (entityVecs D e)) },
        entities.flatMap (entityVecs D e), none⟩ := by
  have hlen : entities.length > 0 := List.length_pos.mpr hne
  unfold Describe
  simp only [hlen, if_true]
  rw [describeEntities_eq D entities _ [] h, entityVecs_metrics]
  rfl

/-! ## Where samples and descriptors come from, panics included -/

theorem withLabelValues_vec (metrics : String → Option GaugeVec) (key : String)
    (lvs : List String) (g : GaugeVec) (h : withLabelValues metrics key lvs = Except.ok g) :
    metrics key = some g := by
  unfold withLabelValues at h
  cases hm : metrics key with
  | none => rw [hm] at h; simp at h
  | some g1 =>
      rw [hm] at h
      by_cases hl : lvs.length = g1.labelNames.length
      · simp [hl] at h; rw [h]
      · simp [hl] at h

theorem uuidGauge_vec {F : Type} (e : HostNicsExporter F) (ent : List (String × JVal F))
    (key : String) (g : GaugeVec × List String) (h : uuidGauge e ent key = Except.ok g) :
    e.metrics key = some g.1 := by
  unfold uuidGauge at h
  cases h1 : assertString (index ent "uuid") with
  | error p => rw [h1] at h; simp at h
  | ok uuid =>
      cases h2 : assertString (index ent "node_uuid") with
      | error p => rw [h1, h2] at h; simp at h
      | ok node_uuid =>
          cases h3 : withLabelValues e.metrics key [uuid, node_uuid] with
          | error p => rw [h1, h2] at h; simp [h3] at h
          | ok g1 =>
              rw [h1, h2] at h
              simp [h3] at h
              rw [← h]
              exact withLabelValues_vec _ _ _ _ h3

theorem collectStats_origin {F : Type} [DecidableEq F] (D : Deps F) (e : HostNicsExporter F)
    (ent stats : List (String × JVal F)) (ch : List (Sample F)) (x : Sample F)
    (hx : x ∈ (collectStats D e ent stats ch).ch) :
    x ∈ ch ∨ ∃ kv ∈ stats, inFilter e.filter_stats kv.1 = true ∧
      D.valueToFloat64 kv.2 ≠ D.negOne ∧ e.metrics (D.normalizeKey kv.1) = some x.vec := by
  induction stats generalizing ch with
  | nil => left; simpa [collectStats] using hx
  | cons kv rest ih =>
      obtain ⟨key, value⟩ := kv
      unfold collectStats at hx
      by_cases hf : inFilter e.filter_stats key = true
      · by_cases hv : D.valueToFloat64 value = D.negOne
        · simp only [hf, hv, if_true] at hx
          rcases ih _ hx with h | ⟨kv, hkv, h⟩
          · exact Or.inl h
          · exact Or.inr ⟨kv, List.mem_cons_of_mem _ hkv, h⟩
        · simp only [hf, hv, if_true, if_false] at hx
          cases hg : uuidGauge e ent (D.normalizeKey key) with
          | error p => rw [hg] at hx; exact Or.inl hx
          | ok g =>
              rw [hg] at hx
              rcases ih _ hx with h | ⟨kv, hkv, h⟩
              · rcases List.mem_append.mp h with h1 | h1
                · exact Or.inl h1
                · right
                  refine ⟨(key, value), List.mem_cons_self _ _, hf, hv, ?_⟩
                  have hxe : x = ⟨g.1, g.2, D.valueToFloat64 value⟩ := by simpa using h1
                  rw [hxe]
                  exact uuidGauge_vec e ent _ g hg
              · exact Or.inr ⟨kv, List.mem_cons_of_mem _ hkv, h⟩
      · rw [if_neg hf] at hx
        rcases ih _ hx with h | ⟨kv, hkv, h⟩
        · exact Or.inl h
        · exact Or.inr ⟨kv, List.mem_cons_of_mem _ hkv, h⟩

theorem collectFields_origin {F : Type} (D : Deps F) (e : HostNicsExporter F)
    (ent : List (String × JVal F)) (fields : List String) (ch : List (Sample F))
    (x : Sample F) (hx : x ∈ (collectFields D e ent fields ch).ch) :
    x ∈ ch ∨ ∃ f ∈ fields, e.metrics f = some x.vec := by
  induction fields generalizing ch with
  | nil => left; simpa [collectFields] using hx
  | cons f rest ih =>
      unfold collectFields at hx
      cases hg : uuidGauge e ent f with
      | error p => rw [hg] at hx; exact Or.inl hx
      | ok g =>
          rw [hg] at hx
          rcases ih _ hx with h | ⟨f1, hf1, h⟩
          · rcases List.mem_append.mp h with h1 | h1
            · exact Or.inl h1
            · right
              refine ⟨f, List.mem_cons_self _ _, ?_⟩
              have hxe : x = ⟨g.1, g.2, D.valueToFloat64 (index ent f)⟩ := by simpa using h1
              rw [hxe]
              exact uuidGauge_vec e ent _ g hg
          · exact Or.inr ⟨f1, List.mem_cons_of_mem _ hf1, h⟩

theorem statsOf_some {F : Type} (ent m : List (String × JVal F))
    (h : statsOf ent = Except.ok (some m)) : entStats (JVal.obj ent) = m := by
  unfold statsOf at h
  unfold entStats entFields
  cases hl : ent.lookup "stats" with
  | none => rw [hl] at h; simp at h
  | some v =>
      rw [hl] at h
      cases v <;> simp at h
      simp [h]

theorem collectEntities_origin {F : Type} [DecidableEq F] (D : Deps F)
    (e : HostNicsExporter F) (entities : List (JVal F)) (ch : List (Sample F))
    (x : Sample F) (hx : x ∈ (collectEntities D e entities ch).ch) :
    x ∈ ch ∨ sampleOrigin D e entities x := by
  induction entities generalizing ch with
  | nil => left; simpa [collectEntities] using hx
  | cons entity rest ih =>
      have hlift : ∀ y : Sample F, sampleOrigin D e rest y →
          sampleOrigin D e (entity :: rest) y := by
        intro y hy
        rcases hy with h | h | ⟨en, hen, h⟩
        · exact Or.inl h
        · exact Or.inr (Or.inl h)
        · exact Or.inr (Or.inr ⟨en, List.mem_cons_of_mem _ hen, h⟩)
      unfold collectEntities at hx
      cases entity with
      | obj ent =>
          simp only [] at hx
          cases hs : statsOf ent with
          | error p => rw [hs] at hx; exact Or.inl hx
          | ok stats =>
              rw [hs] at hx
              simp only [] at hx
              cases hpv : propertyValues D ent e.properties [] with
              | error p => rw [hpv] at hx; exact Or.inl hx
              | ok pv =>
                  rw [hpv] at hx
                  simp only [] at hx
                  cases hw : withLabelValues e.metrics KEY_HOST_NIC_PROPERTIES pv with
                  | error p => rw [hw] at hx; exact Or.inl hx
                  | ok g =>
                      rw [hw] at hx
                      simp only [] at hx
                      have hprop : ∀ y ∈ ch ++ [(⟨g, pv, D.one⟩ : Sample F)],
                          y ∈ ch ∨ sampleOrigin D e (JVal.obj ent :: rest) y := by
                        intro y hy
                        rcases List.mem_append.mp hy with h1 | h1
                        · exact Or.inl h1
                        · right; left
                          have hye : y = ⟨g, pv, D.one⟩ := by simpa using h1
                          rw [hye]
                          exact withLabelValues_vec _ _ _ _ hw
                      have tail : ∀ r1 : CollectRun F,
                          (∀ y ∈ r1.ch, y ∈ ch ∨ sampleOrigin D e (JVal.obj ent :: rest) y) →
                          x ∈ (match r1.panicked with
                            | some p => CollectRun.mk r1.ch (some p)
                            | none =>
                                match (collectFields D e ent e.fields r1.ch).panicked with
                                | some p =>
                                    CollectRun.mk (collectFields D e ent e.fields r1.ch).ch
                                      (some p)
                                | none =>
                                    collectEntities D e rest
                                      (collectFields D e ent e.fields r1.ch).ch).ch →
                          x ∈ ch ∨ sampleOrigin D e (JVal.obj ent :: rest) x := by
                        intro r1 hr1 hx1
                        cases hp1 : r1.panicked with
                        | some p => rw [hp1] at hx1; exact hr1 x hx1
                        | none =>
                            rw [hp1] at hx1
                            simp only [] at hx1
                            have hr2 : ∀ y ∈ (collectFields D e ent e.fields r1.ch).ch,
                                y ∈ ch ∨ sampleOrigin D e (JVal.obj ent :: rest) y := by
                              intro y hy
                              rcases collectFields_origin D e ent e.fields _ y hy with
                                h1 | ⟨f, hf, h1⟩
                              · exact hr1 y h1
                              · exact Or.inr (Or.inr (Or.inl ⟨f, hf, h1⟩))
                            cases hp2 : (collectFields D e ent e.fields r1.ch).panicked with
                            | some p => rw [hp2] at hx1; exact hr2 x hx1
                            | none =>
                                rw [hp2] at hx1
                                simp only [] at hx1
                                rcases ih _ hx1 with h1 | h1
                                · exact hr2 x h1
                                · exact Or.inr (hlift x h1)
                      cases stats with
                      | none =>
                          exact tail (CollectRun.mk (ch ++ [Sample.mk g pv D.one]) none) hprop hx
                      | some m =>
                          refine tail (collectStats D e ent m (ch ++ [Sample.mk g pv D.one]))
                            ?_ hx
                          intro y hy
                          rcases collectStats_origin D e ent m _ y hy with h1 | ⟨kv, hkv, h1⟩
                          · exact hprop y h1
                          · right; right; right
                            refine ⟨JVal.obj ent, List.mem_cons_self _ _, kv, ?_, h1⟩
                            rw [statsOf_some ent m hs]
                            exact hkv
      | null => exact Or.inl hx
      | bool b => exact Or.inl hx
      | num v => exact Or.inl hx
      | str v => exact Or.inl hx
      | arr xs => exact Or.inl hx

/-- Every sample `Collect` sends, whether or not it panics later, was built from a
registry entry looked up under the properties key, an extra field or the normalized key of
a stats entry of a cached entity that passes the filter and does not coerce to `-1`. -/
theorem Collect_origin {F : Type} [DecidableEq F] (D : Deps F) (e : HostNicsExporter F)
    (entities : List (JVal F)) (hres : e.result = some entities) (x : Sample F)
    (hx : x ∈ (Collect D e).ch) : sampleOrigin D e entities x := by
  unfold Collect at hx
  rw [hres] at hx
  rcases collectEntities_origin D e entities [] x hx with h | h
  · simp at h
  · exact h

/-! ## Which lookups can meet a missing registry entry -/

theorem withLabelValues_nil (metrics : String → Option GaugeVec) (key key1 : String)
    (lvs : List String)
    (h : withLabelValues metrics key lvs = Except.error (Panic.nilMetric key1)) :
    key1 = key ∧ metrics key = none := by
  unfold withLabelValues at h
  cases hm : metrics key with
  | none =>
      rw [hm] at h
      simp only [Except.error.injEq, Panic.nilMetric.injEq] at h
      exact ⟨h.symm, rfl⟩
  | some g =>
      rw [hm] at h
      by_cases hl : lvs.length = g.labelNames.length
      · simp [hl] at h
      · simp [hl] at h

theorem assertString_error {F : Type} (v : JVal F) (p : Panic)
    (h : assertString v = Except.error p) : p = Panic.typeAssertion := by
  cases v <;> simp [assertString] at h <;> exact h.symm

theorem uuidGauge_nil {F : Type} (e : HostNicsExporter F) (ent : List (String × JVal F))
    (key key1 : String) (h : uuidGauge e ent key = Except.error (Panic.nilMetric key1)) :
    key1 = key ∧ e.metrics key = none := by
  unfold uuidGauge at h
  cases h1 : assertString (index ent "uuid") with
  | error p =>
      rw [h1] at h
      have hp := assertString_error _ _ h1
      subst hp
      simp at h
  | ok uuid =>
      cases h2 : assertString (index ent "node_uuid") with
      | error p =>
          rw [h1, h2] at h
          have hp := assertString_error _ _ h2
          subst hp
          simp at h
      | ok node_uuid =>
          rw [h1, h2] at h
          cases h3 : withLabelValues e.metrics key [uuid, node_uuid] with
          | error p =>
              simp only [h3, Except.error.injEq] at h
              rw [h] at h3
              exact withLabelValues_nil _ _ _ _ h3
          | ok g => simp [h3] at h

theorem collectStats_nil {F : Type} [DecidableEq F] (D : Deps F) (e : HostNicsExporter F)
    (ent stats : List (String × JVal F)) (ch : List (Sample F)) (key1 : String)
    (h : (collectStats D e ent stats ch).panicked = some (Panic.nilMetric key1)) :
    e.metrics key1 = none ∧ ∃ kv ∈ stats, inFilter e.filter_stats kv.1 = true ∧
      D.valueToFloat64 kv.2 ≠ D.negOne ∧ D.normalizeKey kv.1 = key1 := by
  induction stats generalizing ch with
  | nil => simp [collectStats] at h
  | cons kv rest ih =>
      obtain ⟨key, value⟩ := kv
      have lift : (e.metrics key1 = none ∧ ∃ kv ∈ rest, inFilter e.filter_stats kv.1 = true ∧
          D.valueToFloat64 kv.2 ≠ D.negOne ∧ D.normalizeKey kv.1 = key1) →
          e.metrics key1 = none ∧ ∃ kv ∈ (key, value) :: rest,
            inFilter e.filter_stats kv.1 = true ∧
              D.valueToFloat64 kv.2 ≠ D.negOne ∧ D.normalizeKey kv.1 = key1 :=
        fun ⟨h1, kv1, hkv1, h2⟩ => ⟨h1, kv1, List.mem_cons_of_mem _ hkv1, h2⟩
      unfold collectStats at h
      by_cases hf : inFilter e.filter_stats key = true
      · by_cases hv : D.valueToFloat64 value = D.negOne
        · simp only [hf, hv, if_true] at h
          exact lift (ih _ h)
        · simp only [hf, hv, if_true, if_false] at h
          cases hg : uuidGauge e ent (D.normalizeKey key) with
          | error p =>
              rw [hg] at h
              simp only [Option.some.injEq] at h
              rw [h] at hg
              obtain ⟨hk, hm⟩ := uuidGauge_nil e ent _ _ hg
              rw [← hk] at hm
              exact ⟨hm, (key, value), List.mem_cons_self _ _, hf, hv, hk.symm⟩
          | ok g =>
              rw [hg] at h
              exact lift (ih _ h)
      · rw [if_neg hf] at h
        exact lift (ih _ h)

theorem collectFields_nil {F : Type} (D : Deps F) (e : HostNicsExporter F)
    (ent : List (String × JVal F)) (fields : List String) (ch : List (Sample F))
    (key1 : String)
    (h : (collectFields D e ent fields ch).panicked = some (Panic.nilMetric key1)) :
    e.metrics key1 = none ∧ key1 ∈ fields := by
  induction fields generalizing ch with
  | nil => simp [collectFields] at h
  | cons f rest ih =>
      unfold collectFields at h
      cases hg : uuidGauge e ent f with
      | error p =>
          rw [hg] at h
          simp only [Option.some.injEq] at h
          rw [h] at hg
          obtain ⟨hk, hm⟩ := uuidGauge_nil e ent _ _ hg
          rw [← hk] at hm
          exact ⟨hm, by rw [hk]; exact List.mem_cons_self _ _⟩
      | ok g =>
          rw [hg] at h
          obtain ⟨h1, h2⟩ := ih _ h
          exact ⟨h1, List.mem_cons_of_mem _ h2⟩

theorem propertyValues_error {F : Type} (D : Deps F) (ent : List (String × JVal F))
    (props acc : List String) (p : Panic)
    (h : propertyValues D ent props acc = Except.error p) : p = Panic.typeAssertion := by
  induction props generalizing acc with
  | nil => simp [propertyValues] at h
  | cons q rest ih =>
      unfold propertyValues at h
      by_cases hq : q = "ipv4_addresses"
      · rw [if_pos hq] at h
        cases hidx : index ent q with
        | null => rw [hidx] at h; exact ih _ h
        | arr xs =>
            rw [hidx] at h
            simp only [] at h
            cases ha : addrStrings xs [] with
            | error p1 =>
                rw [ha] at h
                simp only [Except.error.injEq] at h
                subst h
                clear ih hidx
                generalize ([] : List String) = acc0 at ha
                induction xs generalizing acc0 with
                | nil => simp [addrStrings] at ha
                | cons x xs ihx =>
                    unfold addrStrings at ha
                    cases x with
                    | str s1 => exact ihx _ ha
                    | null => simp at ha; exact ha.symm
                    | bool b => simp at ha; exact ha.symm
                    | num v => simp at ha; exact ha.symm
                    | arr ys => simp at ha; exact ha.symm
                    | obj m => simp at ha; exact ha.symm
            | ok strarr => rw [ha] at h; exact ih _ h
        | bool b => rw [hidx] at h; simp at h; exact h.symm
        | num v => rw [hidx] at h; simp at h; exact h.symm
        | str v => rw [hidx] at h; simp at h; exact h.symm
        | obj m => rw [hidx] at h; simp at h; exact h.symm
      · rw [if_neg hq] at h
        cases hidx : index ent q <;> rw [hidx] at h <;> exact ih _ h

theorem collectEntities_nil {F : Type} [DecidableEq F] (D : Deps F)
    (e : HostNicsExporter F) (entities : List (JVal F)) (ch : List (Sample F))
    (key1 : String)
    (h : (collectEntities D e entities ch).panicked = some (Panic.nilMetric key1)) :
    e.metrics key1 = none ∧ lookedUp D e entities key1 := by
  induction entities generalizing ch with
  | nil => simp [collectEntities] at h
  | cons entity rest ih =>
      have hlift : lookedUp D e rest key1 → lookedUp D e (entity :: rest) key1 := by
        intro hy
        rcases hy with h1 | h1 | ⟨en, hen, h1⟩
        · exact Or.inl h1
        · exact Or.inr (Or.inl h1)
        · exact Or.inr (Or.inr ⟨en, List.mem_cons_of_mem _ hen, h1⟩)
      unfold collectEntities at h
      cases entity with
      | obj ent =>
          simp only [] at h
          cases hs : statsOf ent with
          | error p =>
              rw [hs] at h
              unfold statsOf at hs
              cases hl : ent.lookup "stats" with
              | none => rw [hl] at hs; simp at hs
              | some v =>
                  rw [hl] at hs
                  cases v <;> simp at hs <;> subst hs <;> simp at h
          | ok stats =>
              rw [hs] at h
              simp only [] at h
              cases hpv : propertyValues D ent e.properties [] with
              | error p =>
                  rw [hpv] at h
                  have hp := propertyValues_error D ent _ _ p hpv
                  subst hp
                  simp at h
              | ok pv =>
                  rw [hpv] at h
                  simp only [] at h
                  cases hw : withLabelValues e.metrics KEY_HOST_NIC_PROPERTIES pv with
                  | error p =>
                      rw [hw] at h
                      simp only [Option.some.injEq] at h
                      rw [h] at hw
                      obtain ⟨hk, hm⟩ := withLabelValues_nil _ _ _ _ hw
                      rw [← hk] at hm
                      exact ⟨hm, Or.inl hk⟩
                  | ok g =>
                      rw [hw] at h
                      simp only [] at h
                      have tail : ∀ r1 : CollectRun F,
                          (r1.panicked = some (Panic.nilMetric key1) →
                            e.metrics key1 = none ∧
                              lookedUp D e (JVal.obj ent :: rest) key1) →
                          (match r1.panicked with
                            | some p => CollectRun.mk r1.ch (some p)
                            | none =>
                                match (collectFields D e ent e.fields r1.ch).panicked with
                                | some p =>
                                    CollectRun.mk (collectFields D e ent e.fields r1.ch).ch
                                      (some p)
                                | none =>
                                    collectEntities D e rest
                                      (collectFields D e ent e.fields r1.ch).ch).panicked
                            = some (Panic.nilMetric key1) →
                          e.metrics key1 = none ∧
                            lookedUp D e (JVal.obj ent :: rest) key1 := by
                        intro r1 hr1 hx1
                        cases hp1 : r1.panicked with
                        | some p =>
                            rw [hp1] at hx1
                            simp only [] at hx1
                            exact hr1 (by rw [hp1, hx1])
                        | none =>
                            rw [hp1] at hx1
                            simp only [] at hx1
                            cases hp2 : (collectFields D e ent e.fields r1.ch).panicked with
                            | some p =>
                                rw [hp2] at hx1
                                simp only [] at hx1
                                rw [hx1] at hp2
                                obtain ⟨h1, h2⟩ := collectFields_nil D e ent _ _ _ hp2
                                exact ⟨h1, Or.inr (Or.inl h2)⟩
                            | none =>
                                rw [hp2] at hx1
                                simp only [] at hx1
                                obtain ⟨h1, h2⟩ := ih _ hx1
                                exact ⟨h1, hlift h2⟩
                      cases stats with
                      | none =>
                          refine tail (CollectRun.mk (ch ++ [Sample.mk g pv D.one]) none) ?_ h
                          intro hp
                          simp at hp
                      | some m =>
                          refine tail (collectStats D e ent m (ch ++ [Sample.mk g pv D.one]))
                            ?_ h
                          intro hp
                          obtain ⟨h1, kv, hkv, h2⟩ := collectStats_nil D e ent m _ _ hp
                          refine ⟨h1, Or.inr (Or.inr ⟨JVal.obj ent, List.mem_cons_self _ _, kv, ?_, h2⟩)⟩
                          rw [statsOf_some ent m hs]
                          exact hkv
      | null => simp at h
      | bool b => simp at h
      | num v => simp at h
      | str v => simp at h
      | arr xs => simp at h

/-- When `Collect` panics on a nil registry entry, the key it looked up has no entry and
is the properties key, an extra field or the normalized key of a stats entry of a cached
entity that passes the filter and does not coerce to `-1`. -/
theorem Collect_nil {F : Type} [DecidableEq F] (D : Deps F) (e : HostNicsExporter F)
    (entities : List (JVal F)) (hres : e.result = some entities) (key1 : String)
    (h : (Collect D e).panicked = some (Panic.nilMetric key1)) :
    e.metrics key1 = none ∧ lookedUp D e entities key1 := by
  unfold Collect at h
  rw [hres] at h
  exact collectEntities_nil D e entities [] key1 h

theorem describeEntities_step {F : Type} (D : Deps F) (entity : JVal F)
    (rest : List (JVal F)) (e : HostNicsExporter F) (ch : List GaugeVec)
    (hd : describeOK entity = true) :
    describeEntities D (entity :: rest) e ch =
      describeEntities D rest
        { e with metrics := registerAll e.metrics (entityVecs D e entity) }
        (ch ++ entityVecs D e entity) := by
  cases entity with
  | obj ent =>
      conv_lhs => unfold describeEntities
      cases hl : ent.lookup "stats" with
      | none =>
          have hs : statsOf ent = Except.ok none := by simp [statsOf, hl]
          simp only [hs]
          simp [entityVecs, propertiesVec, statVecs, entStats, entFields, hl, registerAll]
      | some v =>
          cases v with
          | obj stats =>
              have hs : statsOf ent = Except.ok (some stats) := by simp [statsOf, hl]
              simp only [hs]
              rw [describeStats_eq]
              simp [entityVecs, propertiesVec, statVecs, statVec, entStats, entFields, hl,
                registerAll]
          | null => simp [describeOK, hl] at hd
          | bool b => simp [describeOK, hl] at hd
          | num x => simp [describeOK, hl] at hd
          | str s => simp [describeOK, hl] at hd
          | arr xs => simp [describeOK, hl] at hd
  | null => simp [describeOK] at hd
  | bool b => simp [describeOK] at hd
  | num x => simp [describeOK] at hd
  | str s => simp [describeOK] at hd
  | arr xs => simp [describeOK] at hd

theorem describeEntities_stop {F : Type} (D : Deps F) (entity : JVal F)
    (rest : List (JVal F)) (e : HostNicsExporter F) (ch : List GaugeVec)
    (hd : describeOK entity = false) :
    describeEntities D (entity :: rest) e ch = ⟨e, ch, some Panic.typeAssertion⟩ := by
  cases entity with
  | obj ent =>
      unfold describeEntities
      cases hl : ent.lookup "stats" with
      | none => simp [describeOK, hl] at hd
      | some v =>
          cases v with
          | obj stats => simp [describeOK, hl] at hd
          | null => simp [statsOf, hl]
          | bool b => simp [statsOf, hl]
          | num x => simp [statsOf, hl]
          | str s => simp [statsOf, hl]
          | arr xs => simp [statsOf, hl]
  | null => simp [describeEntities]
  | bool b => simp [describeEntities]
  | num x => simp [describeEntities]
  | str s => simp [describeEntities]
  | arr xs => simp [describeEntities]

/-- Whatever the entities, the loop of `Describe` handles a leading part of them: it sends
their vectors and stores each under its name, and changes nothing else. -/
theorem describeEntities_run {F : Type} (D : Deps F) (entities : List (JVal F))
    (e : HostNicsExporter F) (ch : List GaugeVec) :
    ∃ pre post p, entities = pre ++ post ∧
      describeEntities D entities e ch =
        ⟨{ e with metrics := registerAll e.metrics (pre.flatMap (entityVecs D e)) },
          ch ++ pre.flatMap (entityVecs D e), p⟩ := by
  induction entities generalizing e ch with
  | nil => exact ⟨[], [], none, rfl, by simp [describeEntities, registerAll]⟩
  | cons entity rest ih =>
      cases hd : describeOK entity with
      | false =>
          refine ⟨[], entity :: rest, some Panic.typeAssertion, rfl, ?_⟩
          rw [describeEntities_stop D entity rest e ch hd]
          simp [registerAll]
      | true =>
          obtain ⟨pre, post, p, hsplit, hrun⟩ :=
            ih { e with metrics := registerAll e.metrics (entityVecs D e entity) }
              (ch ++ entityVecs D e entity)
          refine ⟨entity :: pre, post, p, by simp [hsplit], ?_⟩
          have hcongr := entityVecs_metrics D e (registerAll e.metrics (entityVecs D e entity))
          rw [describeEntities_step D entity rest e ch hd, hrun, hcongr]
          simp [registerAll_append]

theorem entityVecs_name {F : Type} (D : Deps F) (e : HostNicsExporter F)
    (entities : List (JVal F)) (g : GaugeVec)
    (hg : g ∈ entities.flatMap (entityVecs D e)) :
    describedName D e entities g.name ∧
      (g = propertiesVec e ∨ g.labelNames = ["uuid", "node_uuid"]) := by
  obtain ⟨entity, hen, hge⟩ := List.mem_flatMap.mp hg
  simp only [entityVecs, List.mem_cons] at hge
  rcases hge with h | h
  · subst h
    exact ⟨Or.inl rfl, Or.inl rfl⟩
  · simp only [statVecs, List.mem_map, List.mem_filter] at h
    obtain ⟨kv, ⟨hkv, hf⟩, hgk⟩ := h
    subst hgk
    exact ⟨Or.inr ⟨entity, hen, kv, hkv, hf, rfl⟩, Or.inr rfl⟩

theorem registerAll_of_not_mem (metrics : String → Option GaugeVec) (gs : List GaugeVec)
    (n : String) (h : ∀ g ∈ gs, g.name ≠ n) : registerAll metrics gs n = metrics n := by
  rw [registerAll_apply]
  have hnone : gs.reverse.find? (fun g => decide (g.name = n)) = none := by
    rw [List.find?_eq_none]
    intro g hg
    simpa using h g (List.mem_reverse.mp hg)
  rw [hnone]

theorem registerAll_of_mem (metrics : String → Option GaugeVec) (gs : List GaugeVec)
    (g : GaugeVec) (hg : g ∈ gs) :
    ∃ g1 ∈ gs, g1.name = g.name ∧ registerAll metrics gs g.name = some g1 := by
  rw [registerAll_apply]
  cases hfind : gs.reverse.find? (fun g1 => decide (g1.name = g.name)) with
  | none =>
      rw [List.find?_eq_none] at hfind
      have := hfind g (List.mem_reverse.mpr hg)
      simp at this
  | some g1 =>
      have h1 := List.find?_some hfind
      have h2 := List.mem_of_find?_eq_some hfind
      exact ⟨g1, List.mem_reverse.mp h2, by simpa using h1, rfl⟩

theorem entityVecs_result {F : Type} (D : Deps F) (e : HostNicsExporter F)
    (r : Option (List (JVal F))) :
    entityVecs D { e with result := r } = entityVecs D e := rfl

/-- Whatever the entities of a non-empty fetch result, `Describe` caches the result and
handles a leading part of the entities. -/
theorem Describe_run {F : Type} (D : Deps F) (e : HostNicsExporter F)
    (entities : List (JVal F)) (hne : entities ≠ []) :
    ∃ pre post p, entities = pre ++ post ∧
      Describe D e (Fetch.body entities) =
        ⟨{ e with result := some entities,
                  metrics := registerAll e.metrics (pre.flatMap (entityVecs D e)) },
          pre.flatMap (entityVecs D e), p⟩ := by
  have hlen : entities.length > 0 := List.length_pos.mpr hne
  obtain ⟨pre, post, p, hsplit, hrun⟩ :=
    describeEntities_run D entities { e with result := some entities } []
  refine ⟨pre, post, p, hsplit, ?_⟩
  unfold Describe
  simp only [hlen, if_true]
  rw [hrun, entityVecs_result]
  simp

theorem registerAll_keyed (metrics : String → Option GaugeVec) (gs : List GaugeVec)
    (hkeyed : ∀ key g, metrics key = some g → g.name = key) (key : String) (g : GaugeVec)
    (h : registerAll metrics gs key = some g) : g.name = key := by
  rw [registerAll_apply] at h
  cases hfind : gs.reverse.find? (fun g1 => decide (g1.name = key)) with
  | none => rw [hfind] at h; exact hkeyed key g h
  | some g1 =>
      rw [hfind] at h
      have h1 := List.find?_some hfind
      simp only [Option.some.injEq] at h
      rw [← h]
      simpa using h1

theorem describedName_mono {F : Type} (D : Deps F) (e : HostNicsExporter F)
    (pre post : List (JVal F)) (n : String) (h : describedName D e pre n) :
    describedName D e (pre ++ post) n := by
  rcases h with h | ⟨entity, hen, kv, hkv, hf, hk⟩
  · exact Or.inl h
  · exact Or.inr ⟨entity, List.mem_append_left _ hen, kv, hkv, hf, hk⟩

theorem map_strOf_str {F : Type} (strs : List String) :
    (strs.map (JVal.str : String → JVal F)).map strOf = strs := by
  induction strs with
  | nil => rfl
  | cons a rest ih => simp [strOf, ih]

theorem mem_entityVecs {F : Type} (D : Deps F) (e : HostNicsExporter F)
    (entities : List (JVal F)) (g : GaugeVec)
    (hg : g ∈ entities.flatMap (entityVecs D e)) :
    g = propertiesVec e ∨
      ∃ entity ∈ entities, ∃ kv ∈ entStats entity,
        inFilter e.filter_stats kv.1 = true ∧ g = statVec D e kv.1 := by
  obtain ⟨entity, hen, hge⟩ := List.mem_flatMap.mp hg
  simp only [entityVecs, List.mem_cons] at hge
  rcases hge with h | h
  · exact Or.inl h
  · simp only [statVecs, List.mem_map, List.mem_filter] at h
    obtain ⟨kv, ⟨hkv, hf⟩, hgk⟩ := h
    exact Or.inr ⟨entity, hen, kv, hkv, hf, hgk.symm⟩

/-- The hypothesis `collectSafe` is what the paired `Describe` establishes: for an
exporter without extra fields, as `NewHostsNetworkCollector` builds it, a non-empty fetch
result of well-formed entities and no filter-passing statistic key that normalizes to the
properties key, nothing makes `Collect` panic on the exporter `Describe` leaves. -/
theorem Describe_collectSafe {F : Type} [DecidableEq F] (D : Deps F)
    (e : HostNicsExporter F) (entities : List (JVal F)) (hne : entities ≠ [])
    (hwf : ∀ entity ∈ entities, entityOK e.properties entity = true)
    (hfields : e.fields = [])
    (hname : ∀ entity ∈ entities, ∀ kv ∈ entStats entity,
      inFilter e.filter_stats kv.1 = true → D.normalizeKey kv.1 ≠ KEY_HOST_NIC_PROPERTIES) :
    collectSafe D (Describe D e (Fetch.body entities)).exporter entities = true := by
  have hd : ∀ entity ∈ entities, describeOK entity = true := by
    intro entity hen
    have h := hwf entity hen
    simp only [entityOK, Bool.and_eq_true] at h
    exact h.1.1.1
  rw [Describe_eq D e entities hne hd]
  simp only [collectSafe, Bool.and_eq_true, List.all_eq_true]
  refine ⟨⟨?_, ?_⟩, ?_⟩
  · obtain ⟨entity0, rest, hsplit⟩ := List.exists_cons_of_ne_nil hne
    have hmem : propertiesVec e ∈ entities.flatMap (entityVecs D e) := by
      refine List.mem_flatMap.mpr ⟨entity0, by rw [hsplit]; exact List.mem_cons_self _ _, ?_⟩
      simp [entityVecs]
    obtain ⟨g1, hg1, hname1, hreg⟩ := registerAll_of_mem e.metrics _ _ hmem
    have hreg1 : registerAll e.metrics (entities.flatMap (entityVecs D e))
        KEY_HOST_NIC_PROPERTIES = some g1 := hreg
    rcases mem_entityVecs D e entities g1 hg1 with h | ⟨en, hen, kv, hkv, hf, h⟩
    · simp [hasArity, hreg1, h, propertiesVec]
    · exfalso
      rw [h] at hname1
      exact hname en hen kv hkv hf hname1
  · intro f hf
    rw [hfields] at hf
    simp at hf
  · intro entity hen
    refine ⟨hwf entity hen, ?_⟩
    simp only [statsRegistered, List.all_eq_true, Bool.or_eq_true, Bool.not_eq_true',
      decide_eq_true_eq]
    intro kv hkv
    cases hf : inFilter e.filter_stats kv.1 with
    | false => exact Or.inl (Or.inl rfl)
    | true =>
        right
        have hmem : statVec D e kv.1 ∈ entities.flatMap (entityVecs D e) := by
          refine List.mem_flatMap.mpr ⟨entity, hen, ?_⟩
          simp only [entityVecs, statVecs, List.mem_cons, List.mem_map, List.mem_filter]
          exact Or.inr ⟨kv, ⟨hkv, hf⟩, rfl⟩
        obtain ⟨g1, hg1, hname1, hreg⟩ := registerAll_of_mem e.metrics _ _ hmem
        have hreg1 : registerAll e.metrics (entities.flatMap (entityVecs D e))
            (D.normalizeKey kv.1) = some g1 := hreg
        rcases mem_entityVecs D e entities g1 hg1 with h | ⟨en1, _, kv1, _, _, h⟩
        · exfalso
          rw [h] at hname1
          exact hname entity hen kv hkv hf hname1.symm
        · simp [hasArity, hreg1, h, statVec]

theorem hasArity_some (metrics : String → Option GaugeVec) (key : String) (n : Nat)
    (h : hasArity metrics key n = true) : metrics key = some (vecAt metrics key) := by
  unfold hasArity at h
  unfold vecAt
  cases hm : metrics key with
  | none => rw [hm] at h; simp at h
  | some g => simp

theorem filter_flatMap_head {α β : Type} (p : β → Bool) (hd : α → β) (tl : α → List β)
    (l : List α) (h : ∀ a ∈ l, p (hd a) = true ∧ ∀ x ∈ tl a, p x = false) :
    (l.flatMap (fun a => hd a :: tl a)).filter p = l.map hd := by
  induction l with
  | nil => rfl
  | cons a rest ih =>
      have hrest : ∀ b ∈ rest, p (hd b) = true ∧ ∀ x ∈ tl b, p x = false :=
        fun b hb => h b (List.mem_cons_of_mem _ hb)
      obtain ⟨h1, h2⟩ := h a (List.mem_cons_self _ _)
      have htl : (tl a).filter p = [] := by
        rw [List.filter_eq_nil_iff]
        intro x hx
        simp [h2 x hx]
      simp [List.flatMap_cons, List.filter_cons, List.filter_append, h1, htl, ih hrest]

/-- After `Describe` has handled a non-empty fetch result of well-formed entities, a
lookup of the paired `Collect` that meets a missing registry entry is one of an extra
field. -/
theorem Collect_nil_after_Describe {F : Type} [DecidableEq F] (D : Deps F)
    (e : HostNicsExporter F) (entities : List (JVal F)) (hne : entities ≠ [])
    (hwf : ∀ entity ∈ entities, describeOK entity = true) (key : String)
    (hpanic : (Collect D (Describe D e (Fetch.body entities)).exporter).panicked
      = some (Panic.nilMetric key)) : key ∈ e.fields := by
  rw [Describe_eq D e entities hne hwf] at hpanic
  obtain ⟨hnone, hlook⟩ := Collect_nil D _ entities rfl key hpanic
  have hnone1 : registerAll e.metrics (entities.flatMap (entityVecs D e)) key = none := hnone
  rcases hlook with h | h | ⟨en, hen, kv, hkv, hf, _, h⟩
  · obtain ⟨entity0, rest, hsplit⟩ := List.exists_cons_of_ne_nil hne
    have hmem : propertiesVec e ∈ entities.flatMap (entityVecs D e) := by
      refine List.mem_flatMap.mpr ⟨entity0, by rw [hsplit]; exact List.mem_cons_self _ _, ?_⟩
      simp [entityVecs]
    obtain ⟨g1, _, _, hreg⟩ := registerAll_of_mem e.metrics _ _ hmem
    have hreg1 : registerAll e.metrics (entities.flatMap (entityVecs D e))
        KEY_HOST_NIC_PROPERTIES = some g1 := hreg
    rw [h, hreg1] at hnone1
    exact absurd hnone1 (by simp)
  · exact h
  · have hmem : statVec D e kv.1 ∈ entities.flatMap (entityVecs D e) := by
      refine List.mem_flatMap.mpr ⟨en, hen, ?_⟩
      simp only [entityVecs, statVecs, List.mem_cons, List.mem_map, List.mem_filter]
      exact Or.inr ⟨kv, ⟨hkv, hf⟩, rfl⟩
    obtain ⟨g1, _, _, hreg⟩ := registerAll_of_mem e.metrics _ _ hmem
    have hreg1 : registerAll e.metrics (entities.flatMap (entityVecs D e))
        (D.normalizeKey kv.1) = some g1 := hreg
    rw [h] at hreg1
    rw [hreg1] at hnone1
    exact absurd hnone1 (by simp)

/-! ## The claims -/

/-- C1: on a non-empty fetch result of well-formed entities `Describe` does not panic and
caches the result; every statistic key of a cached entity that is in the filter set, hence
every key for which the paired `Collect` looks up a metric on the stats path, has a registry
entry under its normalized key, and that entry is a descriptor the same `Describe` sent,
named by the normalized key; every sample the paired `Collect` sends belongs to a registry
entry; and the only lookup of the paired `Collect` that can meet a missing entry is the one
of an extra field. -/
theorem describe_registers_stat_lookups {F : Type} [DecidableEq F] (D : Deps F)
    (e : HostNicsExporter F) (entities : List (JVal F)) (hne : entities ≠ [])
    (hwf : ∀ entity ∈ entities, describeOK entity = true) :
    (Describe D e (Fetch.body entities)).panicked = none ∧
      (Describe D e (Fetch.body entities)).exporter.result = some entities ∧
      (∀ entity ∈ entities, ∀ kv ∈ entStats entity, inFilter e.filter_stats kv.1 = true →
        ∃ g, (Describe D e (Fetch.body entities)).exporter.metrics (D.normalizeKey kv.1)
            = some g ∧
          g ∈ (Describe D e (Fetch.body entities)).ch ∧ g.name = D.normalizeKey kv.1) ∧
      (∀ x ∈ (Collect D (Describe D e (Fetch.body entities)).exporter).ch,
        ∃ key, (Describe D e (Fetch.body entities)).exporter.metrics key = some x.vec) ∧
      (∀ key : String,
        (Collect D (Describe D e (Fetch.body entities)).exporter).panicked
            = some (Panic.nilMetric key) →
          key ∈ e.fields) := by
  have hstat : ∀ entity ∈ entities, ∀ kv ∈ entStats entity,
      inFilter e.filter_stats kv.1 = true →
        ∃ g, registerAll e.metrics (entities.flatMap (entityVecs D e)) (D.normalizeKey kv.1)
            = some g ∧
          g ∈ entities.flatMap (entityVecs D e) ∧ g.name = D.normalizeKey kv.1 := by
    intro entity hen kv hkv hf
    have hmem : statVec D e kv.1 ∈ entities.flatMap (entityVecs D e) := by
      refine List.mem_flatMap.mpr ⟨entity, hen, ?_⟩
      simp only [entityVecs, statVecs, List.mem_cons, List.mem_map, List.mem_filter]
      exact Or.inr ⟨kv, ⟨hkv, hf⟩, rfl⟩
    obtain ⟨g1, hg1, hname, hreg⟩ := registerAll_of_mem e.metrics _ _ hmem
    exact ⟨g1, hreg, hg1, hname⟩
  have hprop : ∃ g, registerAll e.metrics (entities.flatMap (entityVecs D e))
      KEY_HOST_NIC_PROPERTIES = some g := by
    obtain ⟨entity0, rest, hsplit⟩ := List.exists_cons_of_ne_nil hne
    have hmem : propertiesVec e ∈ entities.flatMap (entityVecs D e) := by
      refine List.mem_flatMap.mpr ⟨entity0, by rw [hsplit]; exact List.mem_cons_self _ _, ?_⟩
      simp [entityVecs]
    obtain ⟨g1, _, _, hreg⟩ := registerAll_of_mem e.metrics _ _ hmem
    exact ⟨g1, hreg⟩
  rw [Describe_eq D e entities hne hwf]
  refine ⟨rfl, rfl, hstat, ?_, ?_⟩
  · intro x hx
    rcases Collect_origin D _ entities rfl x hx with h | ⟨f, _, h⟩ | ⟨en, _, kv, _, _, _, h⟩
    · exact ⟨_, h⟩
    · exact ⟨_, h⟩
    · exact ⟨_, h⟩
  · intro key hpanic
    obtain ⟨hnone, hlook⟩ := Collect_nil D _ entities rfl key hpanic
    have hnone1 : registerAll e.metrics (entities.flatMap (entityVecs D e)) key = none :=
      hnone
    rcases hlook with h | h | ⟨en, hen, kv, hkv, hf, _, h⟩
    · obtain ⟨g, hg⟩ := hprop
      rw [h, hg] at hnone1
      exact absurd hnone1 (by simp)
    · exact h
    · obtain ⟨g, hg, _, _⟩ := hstat en hen kv hkv hf
      rw [h] at hg
      rw [hg] at hnone1
      exact absurd hnone1 (by simp)

/-- C1, on the scenario: the two entities are well-formed and the statement holds for
them. -/
theorem describe_registers_stat_lookups_scenario :
    scenarioEntities ≠ [] ∧ (∀ entity ∈ scenarioEntities, describeOK entity = true) ∧
      ((Describe specDeps scenarioExporter (Fetch.body scenarioEntities)).panicked = none ∧
      (Describe specDeps scenarioExporter (Fetch.body scenarioEntities)).exporter.result
        = some scenarioEntities ∧
      (∀ entity ∈ scenarioEntities, ∀ kv ∈ entStats entity,
        inFilter scenarioExporter.filter_stats kv.1 = true →
        ∃ g, (Describe specDeps scenarioExporter (Fetch.body scenarioEntities)).exporter.metrics
              (specDeps.normalizeKey kv.1) = some g ∧
          g ∈ (Describe specDeps scenarioExporter (Fetch.body scenarioEntities)).ch ∧
          g.name = specDeps.normalizeKey kv.1) ∧
      (∀ x ∈ (Collect specDeps
            (Describe specDeps scenarioExporter (Fetch.body scenarioEntities)).exporter).ch,
        ∃ key, (Describe specDeps scenarioExporter (Fetch.body scenarioEntities)).exporter.metrics
          key = some x.vec) ∧
      (∀ key : String,
        (Collect specDeps
            (Describe specDeps scenarioExporter (Fetch.body scenarioEntities)).exporter).panicked
            = some (Panic.nilMetric key) →
          key ∈ scenarioExporter.fields)) :=
  ⟨List.cons_ne_nil _ _, by decide,
    describe_registers_stat_lookups specDeps scenarioExporter scenarioEntities
      (List.cons_ne_nil _ _) (by decide)⟩

/-- C2 (the code departs from it): after a scrape that cached the two entities of the
scenario, a fetch that succeeds with zero entities makes `Describe` send no descriptor
but leaves the cache as it was, and the paired `Collect` sends the three samples of the
earlier scrape again; after a failed fetch it sends none. -/
theorem describe_empty_fetch_keeps_cache :
    (Describe specDeps scenarioReady (Fetch.body [])).ch = [] ∧
      (Describe specDeps scenarioReady (Fetch.body [])).exporter.result
        = some scenarioEntities ∧
      (Collect specDeps (Describe specDeps scenarioReady (Fetch.body [])).exporter).ch.length
        = 3 ∧
      (Collect specDeps (Describe specDeps scenarioReady Fetch.failed).exporter).ch.length
        = 0 :=
  ⟨rfl, rfl, by decide, by decide⟩

/-- C3: when the fetch fails, `Describe` empties the cache, sends no descriptor, leaves
the registry as it was and does not panic, and the paired `Collect` sends no sample. -/
theorem describe_failed_fetch {F : Type} [DecidableEq F] (D : Deps F)
    (e : HostNicsExporter F) :
    (Describe D e Fetch.failed).exporter.result = none ∧
      (Describe D e Fetch.failed).ch = [] ∧
      (Describe D e Fetch.failed).exporter.metrics = e.metrics ∧
      (Describe D e Fetch.failed).panicked = none ∧
      (Collect D (Describe D e Fetch.failed).exporter).ch = [] ∧
      (Collect D (Describe D e Fetch.failed).exporter).panicked = none :=
  ⟨rfl, rfl, rfl, rfl, rfl, rfl⟩

/-- C4: when nothing makes `Collect` panic, it sends for each cached entity, after the
properties sample and before the field samples, one sample for each entry of the stats map,
in order, whose key is in the filter set and whose value does not coerce to `-1`, and none
for the other entries; the sample carries the coerced value and the label values
`(uuid, node_uuid)` of the entity. An entry that coerces to `-1` leaves the samples of the
other entries in place. -/
theorem collect_stats_skip_sentinel {F : Type} [DecidableEq F] (D : Deps F)
    (e : HostNicsExporter F) (entities : List (JVal F)) (hres : e.result = some entities)
    (hsafe : collectSafe D e entities = true) :
    (Collect D e).panicked = none ∧
      (Collect D e).ch = entities.flatMap (fun entity =>
        propertiesSample D e entity ::
          ((entStats entity).flatMap (fun kv =>
            if inFilter e.filter_stats kv.1 = true ∧ D.valueToFloat64 kv.2 ≠ D.negOne then
              [Sample.mk (vecAt e.metrics (D.normalizeKey kv.1)) (uuidLabels entity)
                (D.valueToFloat64 kv.2)]
            else []) ++ fieldSamples D e entity)) ∧
      (∀ entity ∈ entities, ∀ kv ∈ entStats entity, inFilter e.filter_stats kv.1 = true →
        D.valueToFloat64 kv.2 ≠ D.negOne →
          Sample.mk (vecAt e.metrics (D.normalizeKey kv.1)) (uuidLabels entity)
            (D.valueToFloat64 kv.2) ∈ (Collect D e).ch) := by
  have heq := Collect_eq D e entities hres hsafe
  refine ⟨by rw [heq], by rw [heq]; rfl, ?_⟩
  intro entity hen kv hkv hf hv
  rw [heq]
  refine List.mem_flatMap.mpr ⟨entity, hen, ?_⟩
  simp only [entitySamples, List.mem_cons, List.mem_append]
  refine Or.inr (Or.inl ?_)
  simp only [statSamples]
  refine List.mem_flatMap.mpr ⟨kv, hkv, ?_⟩
  simp [hf, hv]

/-- C4, on the scenario: entity `a` reports 100 and entity `b` reports `-1` for
`network.received_bytes`; exactly one `network_received_bytes` sample is sent, with value
100 and labels `(a, n1)`, between the two properties samples. -/
theorem collect_stats_skip_sentinel_scenario :
    scenarioReady.result = some scenarioEntities ∧
      collectSafe specDeps scenarioReady scenarioEntities = true ∧
      ((Collect specDeps scenarioReady).panicked = none ∧
        (Collect specDeps scenarioReady).ch = scenarioEntities.flatMap (fun entity =>
          propertiesSample specDeps scenarioReady entity ::
            ((entStats entity).flatMap (fun kv =>
              if inFilter scenarioReady.filter_stats kv.1 = true ∧
                  specDeps.valueToFloat64 kv.2 ≠ specDeps.negOne then
                [Sample.mk (vecAt scenarioReady.metrics (specDeps.normalizeKey kv.1))
                  (uuidLabels entity) (specDeps.valueToFloat64 kv.2)]
              else []) ++ fieldSamples specDeps scenarioReady entity)) ∧
        (∀ entity ∈ scenarioEntities, ∀ kv ∈ entStats entity,
          inFilter scenarioReady.filter_stats kv.1 = true →
          specDeps.valueToFloat64 kv.2 ≠ specDeps.negOne →
            Sample.mk (vecAt scenarioReady.metrics (specDeps.normalizeKey kv.1))
              (uuidLabels entity) (specDeps.valueToFloat64 kv.2) ∈
                (Collect specDeps scenarioReady).ch)) ∧
      (Collect specDeps scenarioReady).ch =
        [⟨⟨"nutanix_hostnics", "properties",
            ["node_uuid", "uuid", "mac_address", "ipv4_addresses", "name", "mtu_in_bytes"]⟩,
          ["n1", "a", "aa:bb", "", "", ""], 1⟩,
         ⟨⟨"nutanix_hostnics", "network_received_bytes", ["uuid", "node_uuid"]⟩,
          ["a", "n1"], 100⟩,
         ⟨⟨"nutanix_hostnics", "properties",
            ["node_uuid", "uuid", "mac_address", "ipv4_addresses", "name", "mtu_in_bytes"]⟩,
          ["n1", "b", "cc:dd", "", "", ""], 1⟩] :=
  ⟨rfl, by decide,
    collect_stats_skip_sentinel specDeps scenarioReady scenarioEntities rfl (by decide),
    by decide⟩

/-- C5 (as stated it fails): a statistic called `properties` is not in the filter set,
yet `Collect` sends a sample whose metric name is that key, the properties sample; and the
key `network_received_bytes`, not in the filter set either, is the name of the sample sent
for the allow-listed `network.received_bytes` of the same entity. -/
theorem unlisted_key_names_a_sample :
    inFilter (NewHostsNetworkCollector Int).filter_stats "properties" = false ∧
      ("properties", JVal.num 5) ∈ entStats entityE ∧
      inFilter (NewHostsNetworkCollector Int).filter_stats "network_received_bytes" = false ∧
      ("network_received_bytes", JVal.num 7) ∈ entStats entityE ∧
      (Collect specDeps
        (Describe specDeps (NewHostsNetworkCollector Int) (Fetch.body [entityE])).exporter).ch
        = [⟨⟨"nutanix_hostnics", "properties",
              ["node_uuid", "uuid", "mac_address", "ipv4_addresses", "name", "mtu_in_bytes"]⟩,
            ["n1", "e", "", "", "", ""], 1⟩,
           ⟨⟨"nutanix_hostnics", "network_received_bytes", ["uuid", "node_uuid"]⟩,
            ["e", "n1"], 100⟩] :=
  ⟨by decide, List.mem_cons_self _ _, by decide,
    List.mem_cons_of_mem _ (List.mem_cons_of_mem _ (List.mem_cons_self _ _)), by decide⟩

/-- C5, amended: for a non-empty fetch result that `Describe` caches, a registry keyed by
metric name, and a statistic key `k` of a cached entity that is not in the filter set: if
the name `n`, which is `k` or `normalizeKey k`, is not the properties key, not an extra
field and not the normalized form of a filter-passing statistic key of a cached entity,
then the paired `Collect` sends no sample named `n`, `Describe` sends no descriptor named
`n`, and the registry entry under `n` is the one from before. -/
theorem filter_drops_unlisted_keys {F : Type} [DecidableEq F] (D : Deps F)
    (e : HostNicsExporter F) (entities : List (JVal F)) (hne : entities ≠ [])
    (hkeyed : ∀ key g, e.metrics key = some g → g.name = key)
    (entity : JVal F) (_hen : entity ∈ entities) (kv : String × JVal F)
    (_hkv : kv ∈ entStats entity) (_hk : inFilter e.filter_stats kv.1 = false)
    (n : String) (_hn : n = kv.1 ∨ n = D.normalizeKey kv.1)
    (hprop : n ≠ KEY_HOST_NIC_PROPERTIES) (hfield : n ∉ e.fields)
    (hnorm : ∀ entity1 ∈ entities, ∀ kv1 ∈ entStats entity1,
      inFilter e.filter_stats kv1.1 = true → D.normalizeKey kv1.1 ≠ n) :
    (∀ x ∈ (Collect D (Describe D e (Fetch.body entities)).exporter).ch, x.vec.name ≠ n) ∧
      (∀ g ∈ (Describe D e (Fetch.body entities)).ch, g.name ≠ n) ∧
      (Describe D e (Fetch.body entities)).exporter.metrics n = e.metrics n := by
  obtain ⟨pre, post, p, hsplit, hrun⟩ := Describe_run D e entities hne
  have hnot : ¬ describedName D e entities n := by
    rintro (h | ⟨entity1, hen1, kv1, hkv1, hf1, hk1⟩)
    · exact hprop h
    · exact hnorm entity1 hen1 kv1 hkv1 hf1 hk1
  have hsent : ∀ g ∈ pre.flatMap (entityVecs D e), g.name ≠ n := by
    intro g hg hgn
    have hd := (entityVecs_name D e pre g hg).1
    rw [hgn] at hd
    have hd2 := describedName_mono D e pre post n hd
    rw [← hsplit] at hd2
    exact hnot hd2
  rw [hrun]
  refine ⟨?_, hsent, registerAll_of_not_mem _ _ _ hsent⟩
  intro x hx hxn
  have hreg : ∀ key g, registerAll e.metrics (pre.flatMap (entityVecs D e)) key = some g →
      g.name = key := registerAll_keyed _ _ hkeyed
  rcases Collect_origin D _ entities rfl x hx with h | ⟨f, hf, h⟩ | ⟨en, hen, kv1, hkv1, hf1, _, h⟩
  · exact hprop (by rw [← hxn]; exact hreg _ _ h)
  · have hname := hreg _ _ h
    rw [hxn] at hname
    exact hfield (by rw [hname]; exact hf)
  · have hname := hreg _ _ h
    rw [hxn] at hname
    exact hnorm en hen kv1 hkv1 hf1 hname.symm

/-- C5, on the scenario: `network.unknown_metric` is not in the filter set; no sample and
no descriptor carries that name. -/
theorem filter_drops_unlisted_keys_scenario :
    inFilter scenarioExporter.filter_stats "network.unknown_metric" = false ∧
      (∀ x ∈ (Collect specDeps
          (Describe specDeps scenarioExporter (Fetch.body scenarioEntities)).exporter).ch,
        x.vec.name ≠ "network.unknown_metric") ∧
      (∀ g ∈ (Describe specDeps scenarioExporter (Fetch.body scenarioEntities)).ch,
        g.name ≠ "network.unknown_metric") ∧
      (Describe specDeps scenarioExporter (Fetch.body scenarioEntities)).exporter.metrics
        "network.unknown_metric" = scenarioExporter.metrics "network.unknown_metric" :=
  ⟨by decide,
    filter_drops_unlisted_keys specDeps scenarioExporter scenarioEntities
      (List.cons_ne_nil _ _) (fun _ _ h => nomatch h) entityA (List.mem_cons_self _ _)
      ("network.unknown_metric", JVal.num 5)
      (List.mem_cons_of_mem _ (List.mem_cons_self _ _))
      (by decide) "network.unknown_metric" (Or.inl rfl) (by decide) (by decide)
      (by decide)⟩

/-- C6 (as stated it fails): for the extra-fields list `mtu_in_bytes` and a fetch result
of one well-formed entity, `Describe` ends without a panic and without a registry entry
for the field, its only writes being the properties key and the normalized statistic key;
the field lookup of the paired `Collect` meets the nil entry and panics, after the
properties sample and the stats sample. -/
theorem describe_skips_extra_fields :
    fieldsExporter.fields = ["mtu_in_bytes"] ∧
      (Describe specDeps fieldsExporter (Fetch.body [entityA])).panicked = none ∧
      (Describe specDeps fieldsExporter (Fetch.body [entityA])).ch.map (fun g => g.name)
        = ["properties", "network_received_bytes"] ∧
      (Describe specDeps fieldsExporter (Fetch.body [entityA])).exporter.metrics
        "mtu_in_bytes" = none ∧
      (Collect specDeps
        (Describe specDeps fieldsExporter (Fetch.body [entityA])).exporter).panicked
        = some (Panic.nilMetric "mtu_in_bytes") ∧
      (Collect specDeps
        (Describe specDeps fieldsExporter (Fetch.body [entityA])).exporter).ch.map
          (fun x => x.vec.name) = ["properties", "network_received_bytes"] :=
  ⟨rfl, by decide, by decide, by decide, by decide, by decide⟩

/-- C6, amended: on a non-empty fetch result of well-formed entities `Describe` keeps the
extra-fields list and registers nothing on its account: under a field name that is neither
the properties key nor the normalized form of a filter-passing statistic key of a fetched
entity it sends no descriptor and leaves the registry entry as it was before, and under a
field name that is one of these the entry is a descriptor it sent under that name. With
the empty extra-fields list, the one `NewHostsNetworkCollector` configures, the paired
`Collect` sends no field sample and never meets a missing registry entry. -/
theorem describe_leaves_field_entries {F : Type} [DecidableEq F] (D : Deps F)
    (e : HostNicsExporter F) (entities : List (JVal F)) (hne : entities ≠ [])
    (hwf : ∀ entity ∈ entities, describeOK entity = true) :
    (Describe D e (Fetch.body entities)).exporter.fields = e.fields ∧
      (∀ f ∈ e.fields, ¬ describedName D e entities f →
        (Describe D e (Fetch.body entities)).exporter.metrics f = e.metrics f ∧
          ∀ g ∈ (Describe D e (Fetch.body entities)).ch, g.name ≠ f) ∧
      (∀ f ∈ e.fields, describedName D e entities f →
        ∃ g ∈ (Describe D e (Fetch.body entities)).ch,
          g.name = f ∧ (Describe D e (Fetch.body entities)).exporter.metrics f = some g) ∧
      (e.fields = [] →
        (∀ key : String,
          (Collect D (Describe D e (Fetch.body entities)).exporter).panicked
            ≠ some (Panic.nilMetric key)) ∧
        ∀ entity : JVal F,
          fieldSamples D (Describe D e (Fetch.body entities)).exporter entity = []) := by
  have hnil := Collect_nil_after_Describe D e entities hne hwf
  rw [Describe_eq D e entities hne hwf] at hnil ⊢
  refine ⟨rfl, ?_, ?_, ?_⟩
  · intro f _ hnot
    have hsent : ∀ g ∈ entities.flatMap (entityVecs D e), g.name ≠ f := by
      intro g hg hgn
      have hd := (entityVecs_name D e entities g hg).1
      rw [hgn] at hd
      exact hnot hd
    exact ⟨registerAll_of_not_mem _ _ _ hsent, hsent⟩
  · intro f _ hd
    have hmem : ∃ g0 ∈ entities.flatMap (entityVecs D e), g0.name = f := by
      rcases hd with h | ⟨entity, hen, kv, hkv, hf, hk⟩
      · obtain ⟨entity0, rest, hsplit⟩ := List.exists_cons_of_ne_nil hne
        refine ⟨propertiesVec e, List.mem_flatMap.mpr
          ⟨entity0, by rw [hsplit]; exact List.mem_cons_self _ _, ?_⟩, h.symm⟩
        simp [entityVecs]
      · refine ⟨statVec D e kv.1, List.mem_flatMap.mpr ⟨entity, hen, ?_⟩, hk⟩
        simp only [entityVecs, statVecs, List.mem_cons, List.mem_map, List.mem_filter]
        exact Or.inr ⟨kv, ⟨hkv, hf⟩, rfl⟩
    obtain ⟨g0, hg0, hname0⟩ := hmem
    obtain ⟨g1, hg1, hname1, hreg⟩ := registerAll_of_mem e.metrics _ _ hg0
    rw [hname0] at hname1 hreg
    exact ⟨g1, hg1, hname1, hreg⟩
  · intro hempty
    refine ⟨?_, ?_⟩
    · intro key hpanic
      have hmem := hnil key hpanic
      rw [hempty] at hmem
      simp at hmem
    · intro entity
      simp [fieldSamples, hempty]

/-- C6, on the two configurations: with the extra field `mtu_in_bytes` the registry entry
under it is after `Describe` what it was before, none; with the exporter of the scenario,
whose extra-fields list is empty, the paired `Collect` never meets a missing entry. -/
theorem describe_leaves_field_entries_scenario :
    (∀ entity ∈ [entityA], describeOK entity = true) ∧
      ¬ describedName specDeps fieldsExporter [entityA] "mtu_in_bytes" ∧
      (Describe specDeps fieldsExporter (Fetch.body [entityA])).exporter.metrics "mtu_in_bytes"
        = fieldsExporter.metrics "mtu_in_bytes" ∧
      (∀ entity ∈ scenarioEntities, describeOK entity = true) ∧
      scenarioExporter.fields = [] ∧
      (∀ key : String,
        (Collect specDeps
            (Describe specDeps scenarioExporter (Fetch.body scenarioEntities)).exporter).panicked
          ≠ some (Panic.nilMetric key)) :=
  have hnot : ¬ describedName specDeps fieldsExporter [entityA] "mtu_in_bytes" := by
    rintro (h | ⟨entity, hen, kv, hkv, hf, hk⟩)
    · exact absurd h (by decide)
    · have hall : ∀ entity1 ∈ [entityA], ∀ kv1 ∈ entStats entity1,
          inFilter fieldsExporter.filter_stats kv1.1 = true →
            specDeps.normalizeKey kv1.1 ≠ "mtu_in_bytes" := by decide
      exact hall entity hen kv hkv hf hk
  ⟨by decide, hnot,
    ((describe_leaves_field_entries specDeps fieldsExporter [entityA] (List.cons_ne_nil _ _)
      (by decide)).2.1 "mtu_in_bytes" (List.mem_cons_self _ _) hnot).1,
    by decide, rfl,
    ((describe_leaves_field_entries specDeps scenarioExporter scenarioEntities
      (List.cons_ne_nil _ _) (by decide)).2.2.2 rfl).1⟩

/-- C7: when nothing makes `Collect` panic, it sends for each cached entity, in the order
of the cache, first one sample of the properties metric with gauge value `1`, then the
stats samples and the field samples of that entity; the label values of the properties
sample are the display strings of the configured properties, in their order and as many as
there are properties, and the display string of an absent or null property is empty. When
the registry is keyed by metric name and neither an extra field nor the normalized form of
a filter-passing statistic key is the properties key, the samples named by the properties
key are exactly these, one for each entity in the order of the cache. -/
theorem collect_properties_sample_per_entity {F : Type} [DecidableEq F] (D : Deps F)
    (e : HostNicsExporter F) (entities : List (JVal F)) (hres : e.result = some entities)
    (hsafe : collectSafe D e entities = true) :
    (Collect D e).panicked = none ∧
      (Collect D e).ch = entities.flatMap (fun entity =>
        Sample.mk (vecAt e.metrics KEY_HOST_NIC_PROPERTIES)
            (e.properties.map (fun p => displayString D p (index (entFields entity) p)))
            D.one ::
          (statSamples D e entity ++ fieldSamples D e entity)) ∧
      e.metrics KEY_HOST_NIC_PROPERTIES = some (vecAt e.metrics KEY_HOST_NIC_PROPERTIES) ∧
      (∀ entity : JVal F,
        (e.properties.map (fun p => displayString D p (index (entFields entity) p))).length
          = e.properties.length) ∧
      (∀ (entity : JVal F) (i : Nat) (p : String), e.properties[i]? = some p →
        (e.properties.map (fun q => displayString D q (index (entFields entity) q)))[i]?
          = some (displayString D p (index (entFields entity) p))) ∧
      (∀ (entity : JVal F) (p : String),
        (entFields entity).lookup p = none ∨ (entFields entity).lookup p = some JVal.null →
          displayString D p (index (entFields entity) p) = "") ∧
      ((∀ key g, e.metrics key = some g → g.name = key) →
        (∀ entity ∈ entities, ∀ kv ∈ entStats entity, inFilter e.filter_stats kv.1 = true →
          D.normalizeKey kv.1 ≠ KEY_HOST_NIC_PROPERTIES) →
        KEY_HOST_NIC_PROPERTIES ∉ e.fields →
        (Collect D e).ch.filter (fun x => decide (x.vec.name = KEY_HOST_NIC_PROPERTIES)) =
          entities.map (fun entity =>
            Sample.mk (vecAt e.metrics KEY_HOST_NIC_PROPERTIES)
              (e.properties.map (fun p => displayString D p (index (entFields entity) p)))
              D.one)) := by
  have heq := Collect_eq D e entities hres hsafe
  simp only [collectSafe, Bool.and_eq_true, List.all_eq_true] at hsafe
  obtain ⟨⟨hp, hfl⟩, hents⟩ := hsafe
  have hpv := hasArity_some _ _ _ hp
  refine ⟨by rw [heq], by rw [heq]; rfl, hpv, ?_, ?_, ?_, ?_⟩
  · intro entity
    simp
  · intro entity i p hi
    simp [hi]
  · intro entity p h
    rcases h with h | h <;> simp [index, h, displayString]
  · intro hkeyed hstat hfield
    rw [heq]
    refine filter_flatMap_head _ _
      (fun entity => statSamples D e entity ++ fieldSamples D e entity) entities ?_
    intro entity hen
    refine ⟨by simpa using hkeyed _ _ hpv, ?_⟩
    intro x hx
    rcases List.mem_append.mp hx with h1 | h1
    · simp only [statSamples, List.mem_flatMap] at h1
      obtain ⟨kv, hkv, hxkv⟩ := h1
      by_cases hc : inFilter e.filter_stats kv.1 = true ∧ D.valueToFloat64 kv.2 ≠ D.negOne
      · rw [if_pos hc] at hxkv
        have hxe : x = Sample.mk (vecAt e.metrics (D.normalizeKey kv.1)) (uuidLabels entity)
            (D.valueToFloat64 kv.2) := by simpa using hxkv
        have hreg := (hents entity hen).2
        simp only [statsRegistered, List.all_eq_true, Bool.or_eq_true, Bool.not_eq_true',
          decide_eq_true_eq] at hreg
        have har : hasArity e.metrics (D.normalizeKey kv.1) 2 = true := by
          rcases hreg kv hkv with (h3 | h3) | h3
          · rw [hc.1] at h3; exact absurd h3 (by simp)
          · exact absurd h3 hc.2
          · exact h3
        have hname := hkeyed _ _ (hasArity_some _ _ _ har)
        rw [hxe]
        simp only [decide_eq_false_iff_not]
        rw [hname]
        exact hstat entity hen kv hkv hc.1
      · rw [if_neg hc] at hxkv
        simp at hxkv
    · simp only [fieldSamples, List.mem_map] at h1
      obtain ⟨f, hf, hxf⟩ := h1
      have hname := hkeyed _ _ (hasArity_some _ _ _ (hfl f hf))
      rw [← hxf]
      simp only [decide_eq_false_iff_not]
      rw [hname]
      intro hfk
      exact hfield (by rw [← hfk]; exact hf)

/-- C7, on the scenario: one properties sample for entity `a`, then one for entity `b`,
each with value 1 and six label values. -/
theorem collect_properties_sample_per_entity_scenario :
    scenarioReady.result = some scenarioEntities ∧
      collectSafe specDeps scenarioReady scenarioEntities = true ∧
      (Collect specDeps scenarioReady).panicked = none ∧
      (Collect specDeps scenarioReady).ch = scenarioEntities.flatMap (fun entity =>
        Sample.mk (vecAt scenarioReady.metrics KEY_HOST_NIC_PROPERTIES)
            (scenarioReady.properties.map
              (fun p => displayString specDeps p (index (entFields entity) p)))
            specDeps.one ::
          (statSamples specDeps scenarioReady entity ++
            fieldSamples specDeps scenarioReady entity)) ∧
      ((Collect specDeps scenarioReady).ch.filter
          (fun x => decide (x.vec.name = "properties"))).map (fun x => (x.labelValues, x.value))
        = [(["n1", "a", "aa:bb", "", "", ""], 1), (["n1", "b", "cc:dd", "", "", ""], 1)] :=
  ⟨rfl, by decide,
    (collect_properties_sample_per_entity specDeps scenarioReady scenarioEntities rfl
      (by decide)).1,
    (collect_properties_sample_per_entity specDeps scenarioReady scenarioEntities rfl
      (by decide)).2.1,
    by decide⟩

/-- C8 (as stated it fails): `name` is a configured property; for an entity whose `name`
is the list of strings `a`, `b` the label value sent is `[a b]`, the generic rendering of
the list, and not the strings joined by a comma. -/
theorem list_valued_name_not_joined :
    (NewHostsNetworkCollector Int).properties[4]? = some "name" ∧
      index (entFields entityD) "name" = JVal.arr [JVal.str "a", JVal.str "b"] ∧
      (Collect specDeps
        (Describe specDeps (NewHostsNetworkCollector Int) (Fetch.body [entityD])).exporter).ch.map
          (fun x => x.labelValues) = [["n1", "d", "", "", "[a b]", ""]] ∧
      ",".intercalate ["a", "b"] ≠ "[a b]" :=
  ⟨by decide, rfl, by decide, by decide⟩

/-- C8, amended: when nothing makes `Collect` panic, for the property `ipv4_addresses` at
position `i` of the configured properties and a cached entity whose value for it is a list
of strings, `Collect` sends the properties sample of the entity, and its label value at
position `i` is the strings joined by a comma and nothing else (the empty string for the
empty list). -/
theorem ipv4_addresses_joined {F : Type} [DecidableEq F] (D : Deps F)
    (e : HostNicsExporter F) (entities : List (JVal F)) (hres : e.result = some entities)
    (hsafe : collectSafe D e entities = true) (entity : JVal F) (hen : entity ∈ entities)
    (i : Nat) (hi : e.properties[i]? = some "ipv4_addresses") (strs : List String)
    (hv : index (entFields entity) "ipv4_addresses" = JVal.arr (strs.map JVal.str)) :
    propertiesSample D e entity ∈ (Collect D e).ch ∧
      (propertiesSample D e entity).vec = vecAt e.metrics KEY_HOST_NIC_PROPERTIES ∧
      (propertiesSample D e entity).labelValues[i]? = some (",".intercalate strs) ∧
      ",".intercalate ([] : List String) = "" := by
  have heq := Collect_eq D e entities hres hsafe
  refine ⟨?_, rfl, ?_, rfl⟩
  · rw [heq]
    refine List.mem_flatMap.mpr ⟨entity, hen, ?_⟩
    simp [entitySamples]
  · have hjoin : displayString D "ipv4_addresses" (JVal.arr (strs.map JVal.str))
        = ",".intercalate strs := by
      simp only [displayString, if_true, map_strOf_str]
    simp only [propertiesSample, List.getElem?_map, hi, Option.map_some', hv, hjoin]

/-- C8, on the property formatting example of the specification: the addresses
`10.0.0.1` and `10.0.0.2` give the label `10.0.0.1,10.0.0.2`. -/
theorem ipv4_addresses_joined_example :
    addressesReady.result = some [entityC] ∧
      collectSafe specDeps addressesReady [entityC] = true ∧
      addressesReady.properties[3]? = some "ipv4_addresses" ∧
      (propertiesSample specDeps addressesReady entityC ∈ (Collect specDeps addressesReady).ch ∧
        (propertiesSample specDeps addressesReady entityC).vec
          = vecAt addressesReady.metrics KEY_HOST_NIC_PROPERTIES ∧
        (propertiesSample specDeps addressesReady entityC).labelValues[3]?
          = some (",".intercalate ["10.0.0.1", "10.0.0.2"]) ∧
        ",".intercalate ([] : List String) = "") ∧
      ",".intercalate ["10.0.0.1", "10.0.0.2"] = "10.0.0.1,10.0.0.2" :=
  ⟨rfl, by decide, by decide,
    ipv4_addresses_joined specDeps addressesReady [entityC] rfl (by decide) entityC
      (List.mem_cons_self _ _) 3 (by decide) ["10.0.0.1", "10.0.0.2"] rfl,
    by decide⟩

/-- C9 (as stated it fails): on the two entities of the scenario, both of which carry
`network.received_bytes`, `Describe` sends the properties descriptor twice and the
descriptor of `network_received_bytes` twice, once for each entity. -/
theorem describe_sends_descriptors_twice :
    (Describe specDeps scenarioExporter (Fetch.body scenarioEntities)).ch.map (fun g => g.name)
        = ["properties", "network_received_bytes", "properties", "network_received_bytes"] ∧
      (Describe specDeps scenarioExporter (Fetch.body scenarioEntities)).ch.count
        (propertiesVec scenarioExporter) = 2 ∧
      (Describe specDeps scenarioExporter (Fetch.body scenarioEntities)).ch.count
        (statVec specDeps scenarioExporter "network.received_bytes") = 2 :=
  ⟨by decide, by decide, by decide⟩

/-- C9, amended: on a non-empty fetch result of well-formed entities `Describe` does not
panic and sends, for each entity in order, the properties descriptor and then one
per-statistic descriptor for each entry of the stats map of that entity whose key is in the
filter set, so a name carried by several entities is sent once for each of them; every
send also stores the descriptor under its name, replacing what was there, so afterwards
the registry holds under each name the last descriptor sent with that name, and its
earlier entry when none was sent. -/
theorem describe_sends_per_entity {F : Type} (D : Deps F) (e : HostNicsExporter F)
    (entities : List (JVal F)) (hne : entities ≠ [])
    (hwf : ∀ entity ∈ entities, describeOK entity = true) :
    (Describe D e (Fetch.body entities)).panicked = none ∧
      (Describe D e (Fetch.body entities)).ch = entities.flatMap (fun entity =>
        GaugeVec.mk e.namespace_ KEY_HOST_NIC_PROPERTIES e.properties ::
          ((entStats entity).filter (fun kv => inFilter e.filter_stats kv.1)).map
            (fun kv => GaugeVec.mk e.namespace_ (D.normalizeKey kv.1) ["uuid", "node_uuid"])) ∧
      (∀ n : String, (Describe D e (Fetch.body entities)).exporter.metrics n =
        match (Describe D e (Fetch.body entities)).ch.reverse.find?
            (fun g => decide (g.name = n)) with
        | some g => some g
        | none => e.metrics n) := by
  rw [Describe_eq D e entities hne hwf]
  refine ⟨rfl, rfl, ?_⟩
  intro n
  exact registerAll_apply e.metrics _ n

/-- C9, on the scenario: four descriptors are sent and the registry ends with one entry
for `properties`, one for `network_received_bytes` and none for the key outside the filter
set. -/
theorem describe_sends_per_entity_scenario :
    scenarioEntities ≠ [] ∧ (∀ entity ∈ scenarioEntities, describeOK entity = true) ∧
      (Describe specDeps scenarioExporter (Fetch.body scenarioEntities)).ch =
        scenarioEntities.flatMap (fun entity =>
          GaugeVec.mk scenarioExporter.namespace_ KEY_HOST_NIC_PROPERTIES
              scenarioExporter.properties ::
            ((entStats entity).filter
              (fun kv => inFilter scenarioExporter.filter_stats kv.1)).map
              (fun kv => GaugeVec.mk scenarioExporter.namespace_ (specDeps.normalizeKey kv.1)
                ["uuid", "node_uuid"])) ∧
      (Describe specDeps scenarioExporter (Fetch.body scenarioEntities)).ch.length = 4 ∧
      scenarioReady.metrics "properties" = some (propertiesVec scenarioExporter) ∧
      scenarioReady.metrics "network_received_bytes"
        = some (statVec specDeps scenarioExporter "network.received_bytes") ∧
      scenarioReady.metrics "network_unknown_metric" = none :=
  ⟨List.cons_ne_nil _ _, by decide,
    (describe_sends_per_entity specDeps scenarioExporter scenarioEntities
      (List.cons_ne_nil _ _) (by decide)).2.1,
    by decide, by decide, by decide, by decide⟩

/-- C10: when nothing makes `Collect` panic (in particular every extra field has a
two-label registry entry), it sends for each cached entity, after the properties sample and
the stats samples, exactly one sample for each extra field, in the order of the field list,
with the label values `(uuid, node_uuid)` of the entity and the coerced value of the
attribute of that name; there is no filter test and no test for `-1` on this path. -/
theorem collect_field_samples {F : Type} [DecidableEq F] (D : Deps F)
    (e : HostNicsExporter F) (entities : List (JVal F)) (hres : e.result = some entities)
    (hsafe : collectSafe D e entities = true) :
    (Collect D e).panicked = none ∧
      (Collect D e).ch = entities.flatMap (fun entity =>
        propertiesSample D e entity ::
          (statSamples D e entity ++
            e.fields.map (fun f =>
              Sample.mk (vecAt e.metrics f) (uuidLabels entity)
                (D.valueToFloat64 (index (entFields entity) f))))) ∧
      (∀ entity ∈ entities, ∀ f ∈ e.fields,
        e.metrics f = some (vecAt e.metrics f) ∧
        Sample.mk (vecAt e.metrics f) (uuidLabels entity)
          (D.valueToFloat64 (index (entFields entity) f)) ∈ (Collect D e).ch) := by
  have heq := Collect_eq D e entities hres hsafe
  refine ⟨by rw [heq], by rw [heq]; rfl, ?_⟩
  intro entity hen f hf
  constructor
  · simp only [collectSafe, Bool.and_eq_true, List.all_eq_true] at hsafe
    have hp := hsafe.1.2 f hf
    unfold hasArity at hp
    unfold vecAt
    cases hm : e.metrics f with
    | none => rw [hm] at hp; simp at hp
    | some g => simp
  · rw [heq]
    refine List.mem_flatMap.mpr ⟨entity, hen, ?_⟩
    simp only [entitySamples, List.mem_cons, List.mem_append]
    refine Or.inr (Or.inr ?_)
    simp only [fieldSamples]
    exact List.mem_map.mpr ⟨f, hf, rfl⟩

/-- C10, on an exporter whose extra field `network_received_bytes` has a registry entry:
entity `b` has no attribute of that name, the coerced value is `-1`, and the sample is sent
all the same, while the statistic of the entity that coerces to `-1` yields none. -/
theorem collect_field_samples_sentinel_sent :
    sharedFieldReady.result = some [entityB] ∧
      collectSafe specDeps sharedFieldReady [entityB] = true ∧
      sharedFieldReady.fields = ["network_received_bytes"] ∧
      ((Collect specDeps sharedFieldReady).panicked = none ∧
        (Collect specDeps sharedFieldReady).ch = [entityB].flatMap (fun entity =>
          propertiesSample specDeps sharedFieldReady entity ::
            (statSamples specDeps sharedFieldReady entity ++
              sharedFieldReady.fields.map (fun f =>
                Sample.mk (vecAt sharedFieldReady.metrics f) (uuidLabels entity)
                  (specDeps.valueToFloat64 (index (entFields entity) f))))) ∧
        (∀ entity ∈ [entityB], ∀ f ∈ sharedFieldReady.fields,
          sharedFieldReady.metrics f = some (vecAt sharedFieldReady.metrics f) ∧
          Sample.mk (vecAt sharedFieldReady.metrics f) (uuidLabels entity)
            (specDeps.valueToFloat64 (index (entFields entity) f)) ∈
              (Collect specDeps sharedFieldReady).ch)) ∧
      (Collect specDeps sharedFieldReady).ch.map
          (fun x => (x.vec.name, x.labelValues, x.value))
        = [("properties", ["n1", "b", "cc:dd", "", "", ""], 1),
           ("network_received_bytes", ["b", "n1"], -1)] :=
  ⟨rfl, by decide, rfl,
    collect_field_samples specDeps sharedFieldReady [entityB] rfl (by decide),
    by decide⟩

end HostNics
